import Mathlib

/-!
# Edge computation and parameter-memory protocol of the convnet trainer

A shallow embedding of `src/conv_edge.cc` and `src/local_edge.cc`.

* A C++ `int` is an `Int`. Signed overflow is undefined behaviour in C++, so the
  embedding describes the executions in which no `int` operation overflows.
  The C++ `/` on `int` rounds toward zero and is `Int.tdiv`.
* A `float` is a rational number: arithmetic is exact.
* A method that mutates `*this` is a function returning the new object; a method
  that may abort on a shape error returns an `Option`.
* `tied_edge_` is a pointer: a method that dereferences it takes the pointee as
  an argument and returns its new value next to the new `*this`.
-/

namespace Convnet

/-! ## Tensors -/

/-- Modelled from the spec: the `Matrix` of `matrix.h`, whose member functions
are defined outside `src/`. A tensor is a 2D view `rows × cols` onto a buffer:
`base` is the position of its first element in the underlying allocation and
`data i` is the content of its `i`-th element, elements being stored column by
column (element `(r, c)` is element `r + c * rows`). -/
structure Matrix where
  rows : Nat
  cols : Nat
  base : Nat
  data : Nat → ℚ

/-- The member `GetNumEls` of `matrix.h`. -/
def Matrix.GetNumEls (m : Matrix) : Nat := m.cols * m.rows

/-- Modelled from the spec: `Reshape(tensor, rows, cols)`, "no copy, element
count must match", a mismatch being a fatal shape error. The arguments are the
`int` values of the call: `-1` asks for the dimension that the element count
and the other dimension determine, and any other negative value matches no
element count. -/
def Matrix.Reshape (m : Matrix) (rows cols : Int) : Option Matrix :=
  let n : Int := (m.rows * m.cols : Nat)
  if rows = -1 then
    if 0 < cols ∧ n % cols = 0 then
      some { m with rows := (n / cols).toNat, cols := cols.toNat }
    else none
  else if cols = -1 then
    if 0 < rows ∧ n % rows = 0 then
      some { m with rows := rows.toNat, cols := (n / rows).toNat }
    else none
  else if 0 ≤ rows ∧ 0 ≤ cols ∧ rows * cols = n then
    some { m with rows := rows.toNat, cols := cols.toNat }
  else none

/-- Modelled from the spec: `SliceInto(buffer, start, end) → view` (no copy),
the member `GetSlice` of `matrix.h`: the view onto the columns `[start, end)`,
a range outside the tensor being a fatal shape error. -/
def Matrix.GetSlice (m : Matrix) (start end_ : Int) : Option Matrix :=
  if 0 ≤ start ∧ start ≤ end_ ∧ end_ ≤ m.cols then
    some { rows := m.rows, cols := (end_ - start).toNat,
           base := m.base + start.toNat * m.rows,
           data := fun i => m.data (i + start.toNat * m.rows) }
  else none

/-- Conversion of an `int` to `size_t` (64 bits): reduction modulo `2 ^ 64`. -/
def toSizeT (x : Int) : Nat := (x % 2 ^ 64).toNat

/-- Modelled from the spec: the macro `DIVUP` of the backend headers (not under
`src/`), the number of blocks of `y` positions needed to tile `x` positions,
`(x + y - 1) / y` in `int` arithmetic. -/
def DIVUP (x y : Int) : Int := Int.tdiv (x + y - 1) y

/-- Modelled from the spec: the static scratch state of `Matrix` (`temp_size_`,
`ones_size_` and the pooled temporary `temp_` of `matrix.h`): the number of
scratch elements and of ones registered so far, and the content of the pooled
scratch buffer, which a borrower finds as the previous borrower left it. -/
structure Backend where
  temp_size : Nat
  ones_size : Nat
  temp : Nat → ℚ

/-- Modelled from the spec: `Matrix::RegisterTempMemory`, which records that a
scratch buffer of `size` elements will be borrowed: the pool is sized to the
largest request. -/
def Backend.RegisterTempMemory (be : Backend) (size : Int) : Backend :=
  { be with temp_size := max be.temp_size (toSizeT size) }

/-- Modelled from the spec: `Matrix::RegisterOnes`, the same for the shared
vector of ones. -/
def Backend.RegisterOnes (be : Backend) (size : Int) : Backend :=
  { be with ones_size := max be.ones_size (toSizeT size) }

/-- Modelled from the spec: `BorrowTemp(rows, cols) → tensor`, the static
`Matrix::GetTemp`: a view of the requested shape onto the pooled scratch
buffer. A negative dimension is a fatal shape error. -/
def Backend.GetTemp (be : Backend) (rows cols : Int) : Option Matrix :=
  if 0 ≤ rows ∧ 0 ≤ cols then
    some { rows := rows.toNat, cols := cols.toNat, base := 0, data := be.temp }
  else none

/-- Modelled from the spec: `AddRowVectorBroadcast(tensor, vector)`, the member
`AddRowVec` of `matrix.h`: element `c` of the row vector `v` is added to every
element of column `c`. -/
def Matrix.AddRowVec (m v : Matrix) : Matrix :=
  { m with data := fun i => m.data i + v.data (i / m.rows) }

/-- Modelled from the spec: `SumCols(source, →target, scaleTarget, scaleSource)`:
element `r` of the target becomes `alpha` times itself plus `beta` times the
sum of row `r` of the source over its columns. -/
def Matrix.SumCols (m target : Matrix) (alpha beta : ℚ) : Matrix :=
  { target with
    data := fun r => alpha * target.data r
      + beta * Finset.sum (Finset.range m.cols) fun c => m.data (r + c * m.rows) }

/-- Modelled from the spec: `SumRows(source, →target, scaleTarget, scaleSource)`:
element `c` of the target becomes `alpha` times itself plus `beta` times the
sum of column `c` of the source over its rows. -/
def Matrix.SumRows (m target : Matrix) (alpha beta : ℚ) : Matrix :=
  { target with
    data := fun c => alpha * target.data c
      + beta * Finset.sum (Finset.range m.rows) fun r => m.data (r + c * m.rows) }

/-- Modelled from the spec: the numerical results of the backend kernels, which
are outside the core ("the core only requires a fixed set of operations on
opaque tensors"). Each is a function of the arguments that the edge passes:
* `convUp input w image_size num_modules_y num_modules_x padding stride
  num_input_channels i`: element `i` of `convolve(input, W)`;
* `localUp`: the same for the locally-connected forward operation;
* `convOutp input deriv_output image_size_y kernel_size padding stride
  num_input_channels y x j`: element `j` of the weight gradient contributed by
  the module at row `y` and column `x` of the output grid;
* `localOutp input deriv_output image_size_y num_modules_y num_modules_x
  kernel_size padding stride num_input_channels i`: element `i` of the
  locally-connected weight gradient. -/
structure Primitives where
  convUp : Matrix → Matrix → Int → Int → Int → Int → Int → Int → Nat → ℚ
  localUp : Matrix → Matrix → Int → Int → Int → Int → Int → Int → Nat → ℚ
  convOutp : Matrix → Matrix → Int → Int → Int → Int → Int → Nat → Nat → Nat → ℚ
  localOutp : Matrix → Matrix → Int → Int → Int → Int → Int → Int → Int → Nat → ℚ

/-- Modelled from the spec: `ConvForward`, the static `Matrix::ConvUp`:
`output = convolve(input, W) [+ output if !overwrite]`. -/
def Matrix.ConvUp (k : Primitives) (input w output : Matrix)
    (image_size num_modules_y num_modules_x padding stride num_input_channels : Int)
    (scale_targets : ℚ) : Matrix :=
  { output with
    data := fun i => scale_targets * output.data i
      + k.convUp input w image_size num_modules_y num_modules_x padding stride
          num_input_channels i }

/-- Modelled from the spec: `LocalForward`, the static `Matrix::LocalUp`. -/
def Matrix.LocalUp (k : Primitives) (input w output : Matrix)
    (image_size num_modules_y num_modules_x padding stride num_input_channels : Int)
    (scale_targets : ℚ) : Matrix :=
  { output with
    data := fun i => scale_targets * output.data i
      + k.localUp input w image_size num_modules_y num_modules_x padding stride
          num_input_channels i }

/-- Modelled from the spec: "the output grid is tiled into blocks of up to k×k
module positions", with "one gradient estimate per block". For a grid of
`my × mx` modules and block size `b`, block `p` is the block in row
`p / DIVUP(mx, b)` and column `p % DIVUP(mx, b)` of the tiling, and its
estimate is the sum of `g y x j` over the modules `(y, x)` of the grid that lie
in the block. -/
def blockGrad (g : Nat → Nat → Nat → ℚ) (my mx b : Nat) (p j : Nat) : ℚ :=
  let nbx := (mx + b - 1) / b
  let by_ := p / nbx
  let bx := p % nbx
  Finset.sum (Finset.range b) fun dy =>
    Finset.sum (Finset.range b) fun dx =>
      if by_ * b + dy < my ∧ bx * b + dx < mx then g (by_ * b + dy) (bx * b + dx) j else 0

/-- Modelled from the spec: `ConvBackwardWeights`, the static `Matrix::ConvOutp`.
With `n` the number of elements of one weight gradient (the rows of the target,
one per output channel, times `kernel_size^2 * num_input_channels`), element
`j` of block `p` is element `p * n + j` of the target, which becomes
`scale_targets` times itself plus `scale_outputs` times the estimate of the
block. The blocks come one after the other: this is the layout that
`ComputeOuter` relies on when it views the temporary as
`(output_channels * filter_input_size, partial_sums)` and sums its columns. -/
def Matrix.ConvOutp (k : Primitives) (input deriv_output dw : Matrix)
    (image_size_y num_modules_y num_modules_x kernel_size padding stride
      num_input_channels partial_sum : Int) (scale_targets scale_outputs : ℚ) : Matrix :=
  let n := dw.rows * (kernel_size * kernel_size * num_input_channels).toNat
  { dw with
    data := fun i => scale_targets * dw.data i
      + scale_outputs * blockGrad
          (k.convOutp input deriv_output image_size_y kernel_size padding stride
            num_input_channels)
          num_modules_y.toNat num_modules_x.toNat partial_sum.toNat (i / n) (i % n) }

/-- Modelled from the spec: `LocalBackwardWeights`, the static
`Matrix::LocalOutp` ("same shapes, no partial-sum parameter"). -/
def Matrix.LocalOutp (k : Primitives) (input deriv_output dw : Matrix)
    (image_size_y num_modules_y num_modules_x kernel_size padding stride
      num_input_channels : Int) (scale_targets scale_outputs : ℚ) : Matrix :=
  { dw with
    data := fun i => scale_targets * dw.data i
      + scale_outputs * k.localOutp input deriv_output image_size_y num_modules_y
          num_modules_x kernel_size padding stride num_input_channels i }

/-! ## Edges -/

/-- Modelled from the spec: the fields of the base class `Edge` (declared in
`edge.h`, not under `src/`) that the convolutional and local edges read and
write. `img_display` holds the width and height handed to the image displayer,
when one has been created. -/
structure Edge where
  image_size_y : Int
  image_size_x : Int
  num_modules_y : Int
  num_modules_x : Int
  num_input_channels : Int
  num_output_channels : Int
  is_tied : Bool
  num_grads_received : Int
  img_display : Option (Int × Int)

/-- Modelled from the spec: the optimizer of a parameter tensor, seen through
its only capability, "allocate gradient accumulator of shape (r, c)": the state
is the shape last allocated, if any. -/
structure Optimizer where
  allocated : Option (Int × Int)

/-- Modelled from the spec: `AllocateMemory(rows, cols)` of an optimizer. -/
def Optimizer.AllocateMemory (_o : Optimizer) (rows cols : Int) : Optimizer :=
  { allocated := some (rows, cols) }

/-- Modelled from the spec: the fields that `EdgeWithWeight` (declared in
`edge_with_weight.h`, not under `src/`) adds to `Edge`. -/
structure EdgeWithWeight extends Edge where
  weights : Matrix
  bias : Matrix
  grad_weights : Matrix
  grad_bias : Matrix
  weight_optimizer : Optimizer
  bias_optimizer : Optimizer
  has_no_bias : Bool
  scale_gradients : ℚ

/-- The class `ConvEdge` of `conv_edge.h`. -/
structure ConvEdge extends EdgeWithWeight where
  kernel_size : Int
  stride : Int
  padding : Int
  partial_sum : Int
  shared_bias : Bool

/-- The class `LocalEdge` of `local_edge.cc` (its header is not under `src/`):
kernel size, stride and padding, as its constructor initialises them. -/
structure LocalEdge extends EdgeWithWeight where
  kernel_size : Int
  stride : Int
  padding : Int

/-- Modelled from the spec: `Edge::SetImageSize` "records input spatial size". -/
def Edge.SetImageSize (e : Edge) (image_size_y image_size_x : Int) : Edge :=
  { e with image_size_y := image_size_y, image_size_x := image_size_x }

/-- Modelled from the spec: `EdgeWithWeight::SetTiedTo` "binds this edge's
parameters to `other`": the edge becomes tied (the pointer itself is passed to
the methods that dereference it). -/
def EdgeWithWeight.SetTiedTo (e : EdgeWithWeight) : EdgeWithWeight :=
  { e with is_tied := true }

/-- Modelled from the spec: `GetNumGradsReceived`, the counter
`numGradsReceived` of the edge. -/
def Edge.GetNumGradsReceived (e : Edge) : Int := e.num_grads_received

/-- Modelled from the spec: `IncrementNumGradsReceived`: the counter is
"incremented once per call that contributes to the gradient". -/
def Edge.IncrementNumGradsReceived (e : Edge) : Edge :=
  { e with num_grads_received := e.num_grads_received + 1 }

/-! ### ConvEdge -/

/-- The method `ConvEdge::SetTiedTo`: the pair is the new `*this` and the pointee `*e`,
which is only read. -/
def ConvEdge.SetTiedTo (self ee : ConvEdge) : ConvEdge × ConvEdge :=
  let s0 : ConvEdge := { self with toEdgeWithWeight := self.toEdgeWithWeight.SetTiedTo }
  let s1 : ConvEdge := { s0 with kernel_size := ee.kernel_size }
  let s2 : ConvEdge := { s1 with stride := ee.stride }
  let s3 : ConvEdge := { s2 with padding := ee.padding }
  let s4 : ConvEdge := if s3.partial_sum = 0 then { s3 with partial_sum := ee.partial_sum } else s3
  let s5 : ConvEdge := { s4 with shared_bias := ee.shared_bias }
  (s5, ee)

/-- The method `ConvEdge::SetImageSize`. -/
def ConvEdge.SetImageSize (e : ConvEdge) (image_size_y image_size_x : Int) : ConvEdge :=
  { e with
    toEdge :=
      { e.toEdge.SetImageSize image_size_y image_size_x with
        num_modules_y := Int.tdiv (image_size_y + 2 * e.padding - e.kernel_size) e.stride + 1,
        num_modules_x := Int.tdiv (image_size_x + 2 * e.padding - e.kernel_size) e.stride + 1 } }

/-- The method `ConvEdge::FOV`: the four `int*` arguments are the components of the tuple
`(size, sep, pad1, pad2)`. -/
def ConvEdge.FOV (e : ConvEdge) (t : Int × Int × Int × Int) : Int × Int × Int × Int :=
  let size := e.kernel_size + e.stride * (t.1 - 1)
  let sep := t.2.1 * e.stride
  let pad1 := t.2.2.1 * e.stride + e.padding
  let k := Int.tdiv (e.image_size_x + 2 * e.padding - e.kernel_size) e.stride
  let effective_right_pad := k * e.stride - (e.image_size_x + e.padding - e.kernel_size)
  let pad2 := t.2.2.2 * e.stride + effective_right_pad
  (size, sep, pad1, pad2)

/-- The method `ConvEdge::GetParameterMemoryRequirement`. -/
def ConvEdge.GetParameterMemoryRequirement (e : ConvEdge) : Nat :=
  if e.is_tied then 0
  else
    let input_size := e.kernel_size * e.kernel_size * e.num_input_channels
    let bias_locs := if e.shared_bias then 1 else e.num_modules_y * e.num_modules_x
    toSizeT (e.num_output_channels * (input_size + (if e.has_no_bias then 0 else bias_locs)))

/-- The image displayer that `SetMemory` creates for an edge with three input
channels: its width and height. (`int(sqrt(n))` is the integer square root; a
division by zero, undefined in C++, gives 0 here.) -/
def imageDisplaySize (num_output_channels : Int) : Int × Int :=
  let num_filters := num_output_channels
  let num_filters_w := Int.sqrt num_filters
  let num_filters_h := Int.tdiv num_filters num_filters_w
    + (if Int.tmod num_filters num_filters_w > 0 then 1 else 0)
  let width : Int := 250
  let height := Int.tdiv (width * num_filters_h) num_filters_w
  (width, height)

/-- The method `ConvEdge::SetMemory`: the pair is the new `*this` and the buffer `p`,
which the call reshapes. (The base `Edge::SetMemory`, not under `src/`, holds
no parameter and is modelled from the spec as doing nothing.) -/
def ConvEdge.SetMemory (e : ConvEdge) (p : Matrix) : Option (ConvEdge × Matrix) :=
  if e.is_tied then some (e, p)
  else
    let input_size := e.kernel_size * e.kernel_size * e.num_input_channels
    let bias_locs := if e.shared_bias then 1 else e.num_modules_y * e.num_modules_x
    (p.Reshape e.num_output_channels (-1)).bind fun p1 =>
    (p1.GetSlice 0 input_size).bind fun w =>
    let e1 : ConvEdge := { e with weights := w }
    (if !e1.has_no_bias then
      (p1.GetSlice input_size (input_size + bias_locs)).bind fun b =>
      (b.Reshape 1 (-1)).bind fun b1 =>
      some ({ e1 with bias := b1 } : ConvEdge)
    else some e1).bind fun e2 =>
    let e3 : ConvEdge :=
      if e2.num_input_channels = 3 then
        { e2 with img_display := some (imageDisplaySize e2.num_output_channels) }
      else e2
    some (e3, p1)

/-- The method `ConvEdge::SetGradMemory`: the triple is the new `*this`, the buffer `p` and
the static scratch state of the backend. -/
def ConvEdge.SetGradMemory (e : ConvEdge) (p : Matrix) (be : Backend) :
    Option (ConvEdge × Matrix × Backend) :=
  let input_size := e.kernel_size * e.kernel_size * e.num_input_channels
  let num_locs := e.num_modules_y * e.num_modules_x
  let bias_locs := if e.shared_bias then 1 else num_locs
  (if !e.is_tied then
    (p.Reshape e.num_output_channels (-1)).bind fun p1 =>
    (p1.GetSlice 0 input_size).bind fun g =>
    some (({ e with
        grad_weights := g,
        weight_optimizer := e.weight_optimizer.AllocateMemory e.num_output_channels input_size }
      : ConvEdge), p1)
  else some (e, p)).bind fun (e1, p1) =>
  let be1 : Backend :=
    if e1.partial_sum > 0 then
      let partial_sums := DIVUP e1.num_modules_y e1.partial_sum * DIVUP e1.num_modules_x e1.partial_sum
      (be.RegisterTempMemory (e1.num_output_channels * input_size * partial_sums)).RegisterOnes
        partial_sums
    else be
  (if !e1.has_no_bias && !e1.is_tied then
    (p1.GetSlice input_size (input_size + bias_locs)).bind fun gb =>
    (gb.Reshape 1 (-1)).bind fun gb1 =>
    some (({ e1 with
        grad_bias := gb1,
        bias_optimizer := e1.bias_optimizer.AllocateMemory 1 (e1.num_output_channels * bias_locs) }
      : ConvEdge),
      if e1.shared_bias then be1.RegisterTempMemory (e1.num_output_channels * num_locs) else be1)
  else some (e1, be1)).bind fun (e2, be2) =>
  some (e2, p1, be2)

/-- The method `ConvEdge::ComputeUp`: the result is the tensor `output` after the call.
`tied` is `*tied_edge_`, read through `GetWeight()` and `GetBias()` when the
edge is tied. -/
def ConvEdge.ComputeUp (k : Primitives) (e tied : ConvEdge) (input output : Matrix)
    (overwrite : Bool) : Option Matrix :=
  let w := if e.is_tied then tied.weights else e.weights
  let scale_targets : ℚ := if overwrite then 0 else 1
  let output := Matrix.ConvUp k input w output e.image_size_y e.num_modules_y e.num_modules_x
    e.padding e.stride e.num_input_channels scale_targets
  if !e.has_no_bias then
    let b := if e.is_tied then tied.bias else e.bias
    if e.shared_bias then
      (output.Reshape (-1) e.num_output_channels).bind fun output =>
      (output.AddRowVec b).Reshape (-1)
        (e.num_output_channels * e.num_modules_y * e.num_modules_x)
    else some (output.AddRowVec b)
  else some output

/-- The gradient tensor `dw` of `ComputeOuter`: that of the tied edge when the
edge is tied, its own otherwise. -/
def ConvEdge.dw (e tied : ConvEdge) : Matrix :=
  if e.is_tied then tied.grad_weights else e.grad_weights

/-- The method `ConvEdge::ComputeOuter`: the pair is the new `*this` and the new
`*tied_edge_`, whose gradient tensors the call writes when the edge is tied.
`be` is the backend whose scratch buffer `GetTemp` lends; what the call leaves
in the scratch buffer is not tracked. -/
def ConvEdge.ComputeOuter (k : Primitives) (be : Backend) (e tied : ConvEdge)
    (input deriv_output : Matrix) : Option (ConvEdge × ConvEdge) :=
  let dw := e.dw tied
  let batch_size : Int := input.rows
  let scale_targets : ℚ := if e.GetNumGradsReceived > 0 then 1 else 0
  (if e.partial_sum > 0 then
    let filter_input_size := e.num_input_channels * e.kernel_size * e.kernel_size
    let partial_sums := DIVUP e.num_modules_y e.partial_sum * DIVUP e.num_modules_x e.partial_sum
    (be.GetTemp e.num_output_channels (filter_input_size * partial_sums)).bind fun dw_temp =>
    let dw_temp := Matrix.ConvOutp k input deriv_output dw_temp e.image_size_y e.num_modules_y
      e.num_modules_x e.kernel_size e.padding e.stride e.num_input_channels e.partial_sum 0 1
    (dw_temp.Reshape (e.num_output_channels * filter_input_size) partial_sums).bind fun dw_temp =>
    (dw.Reshape (-1) 1).bind fun dw =>
    (dw_temp.SumCols dw scale_targets (e.scale_gradients / batch_size)).Reshape
      e.num_output_channels filter_input_size
  else
    some (Matrix.ConvOutp k input deriv_output dw e.image_size_y e.num_modules_y
      e.num_modules_x e.kernel_size e.padding e.stride e.num_input_channels e.num_modules_x
      scale_targets (e.scale_gradients / batch_size))).bind fun dw =>
  let db := if e.is_tied then tied.grad_bias else e.grad_bias
  (if !e.has_no_bias then
    if e.shared_bias then
      (be.GetTemp 1 deriv_output.cols).bind fun db_temp =>
      let db_temp := deriv_output.SumRows db_temp 0 1
      (db_temp.Reshape (-1) e.num_output_channels).bind fun db_temp =>
      some (db_temp.SumRows db scale_targets (e.scale_gradients / batch_size))
    else some (deriv_output.SumRows db scale_targets (e.scale_gradients / batch_size))
  else some db).bind fun db =>
  let e1 : ConvEdge := { e with toEdge := e.toEdge.IncrementNumGradsReceived }
  if e.is_tied then
    some (e1, { tied with grad_weights := dw, grad_bias := db })
  else
    some ({ e1 with grad_weights := dw, grad_bias := db }, tied)

/-! ### LocalEdge -/

/-- The method `LocalEdge::SetTiedTo`: the pair is the new `*this` and the pointee `*e`,
which is only read. -/
def LocalEdge.SetTiedTo (self ee : LocalEdge) : LocalEdge × LocalEdge :=
  let s0 : LocalEdge := { self with toEdgeWithWeight := self.toEdgeWithWeight.SetTiedTo }
  let s1 : LocalEdge := { s0 with kernel_size := ee.kernel_size }
  let s2 : LocalEdge := { s1 with stride := ee.stride }
  let s3 : LocalEdge := { s2 with padding := ee.padding }
  (s3, ee)

/-- The method `LocalEdge::SetImageSize`. -/
def LocalEdge.SetImageSize (e : LocalEdge) (image_size_y image_size_x : Int) : LocalEdge :=
  { e with
    toEdge :=
      { e.toEdge.SetImageSize image_size_y image_size_x with
        num_modules_y := Int.tdiv (image_size_y + 2 * e.padding - e.kernel_size) e.stride + 1,
        num_modules_x := Int.tdiv (image_size_x + 2 * e.padding - e.kernel_size) e.stride + 1 } }

/-- The method `LocalEdge::FOV`. -/
def LocalEdge.FOV (e : LocalEdge) (t : Int × Int × Int × Int) : Int × Int × Int × Int :=
  let size := e.kernel_size + e.stride * (t.1 - 1)
  let sep := t.2.1 * e.stride
  let pad1 := t.2.2.1 * e.stride + e.padding
  let k := Int.tdiv (e.image_size_x + 2 * e.padding - e.kernel_size) e.stride
  let effective_right_pad := k * e.stride - (e.image_size_x + e.padding - e.kernel_size)
  let pad2 := t.2.2.2 * e.stride + effective_right_pad
  (size, sep, pad1, pad2)

/-- The method `LocalEdge::GetParameterMemoryRequirement`. -/
def LocalEdge.GetParameterMemoryRequirement (e : LocalEdge) : Nat :=
  if e.is_tied then 0
  else
    let input_size := e.kernel_size * e.kernel_size * e.num_input_channels
                      * e.num_modules_y * e.num_modules_x
    let bias_locs := e.num_modules_y * e.num_modules_x
    toSizeT (e.num_output_channels * (input_size + (if e.has_no_bias then 0 else bias_locs)))

/-- The method `LocalEdge::SetMemory`: the pair is the new `*this` and the buffer `p`. -/
def LocalEdge.SetMemory (e : LocalEdge) (p : Matrix) : Option (LocalEdge × Matrix) :=
  if e.is_tied then some (e, p)
  else
    let input_size := e.kernel_size * e.kernel_size * e.num_input_channels
                      * e.num_modules_y * e.num_modules_x
    let bias_locs := e.num_modules_y * e.num_modules_x
    (p.Reshape e.num_output_channels (-1)).bind fun p1 =>
    (p1.GetSlice 0 input_size).bind fun w =>
    let e1 : LocalEdge := { e with weights := w }
    (if !e1.has_no_bias then
      (p1.GetSlice input_size (input_size + bias_locs)).bind fun b =>
      (b.Reshape 1 (-1)).bind fun b1 =>
      some ({ e1 with bias := b1 } : LocalEdge)
    else some e1).bind fun e2 =>
    let e3 : LocalEdge :=
      if e2.num_input_channels = 3 then
        { e2 with img_display := some (imageDisplaySize e2.num_output_channels) }
      else e2
    some (e3, p1)

/-- The method `LocalEdge::SetGradMemory`: the triple is the new `*this`, the buffer `p`
and the static scratch state of the backend, which this method does not touch.
(The base `Edge::SetGradMemory` is modelled from the spec as doing nothing.) -/
def LocalEdge.SetGradMemory (e : LocalEdge) (p : Matrix) (be : Backend) :
    Option (LocalEdge × Matrix × Backend) :=
  if e.is_tied then some (e, p, be)
  else
    let input_size := e.kernel_size * e.kernel_size * e.num_input_channels
                      * e.num_modules_y * e.num_modules_x
    let bias_locs := e.num_modules_y * e.num_modules_x
    (p.Reshape e.num_output_channels (-1)).bind fun p1 =>
    (p1.GetSlice 0 input_size).bind fun g =>
    let e1 : LocalEdge :=
      { e with
        grad_weights := g,
        weight_optimizer := e.weight_optimizer.AllocateMemory e.num_output_channels input_size }
    (if !e1.has_no_bias then
      (p1.GetSlice input_size (input_size + bias_locs)).bind fun gb =>
      (gb.Reshape 1 (-1)).bind fun gb1 =>
      some ({ e1 with
        grad_bias := gb1,
        bias_optimizer := e1.bias_optimizer.AllocateMemory 1 (e1.num_output_channels * bias_locs) }
        : LocalEdge)
    else some e1).bind fun e2 =>
    some (e2, p1, be)

/-- The method `LocalEdge::ComputeUp`. -/
def LocalEdge.ComputeUp (k : Primitives) (e tied : LocalEdge) (input output : Matrix)
    (overwrite : Bool) : Matrix :=
  let w := if e.is_tied then tied.weights else e.weights
  let scale_targets : ℚ := if overwrite then 0 else 1
  let output := Matrix.LocalUp k input w output e.image_size_y e.num_modules_y e.num_modules_x
    e.padding e.stride e.num_input_channels scale_targets
  if !e.has_no_bias then
    let b := if e.is_tied then tied.bias else e.bias
    output.AddRowVec b
  else output

/-- The gradient tensor `dw` of `LocalEdge::ComputeOuter`. -/
def LocalEdge.dw (e tied : LocalEdge) : Matrix :=
  if e.is_tied then tied.grad_weights else e.grad_weights

/-- The method `LocalEdge::ComputeOuter`: the pair is the new `*this` and the new
`*tied_edge_`. -/
def LocalEdge.ComputeOuter (k : Primitives) (e tied : LocalEdge)
    (input deriv_output : Matrix) : LocalEdge × LocalEdge :=
  let dw := e.dw tied
  let batch_size : Int := input.rows
  let scale_targets : ℚ := if e.GetNumGradsReceived > 0 then 1 else 0
  let dw := Matrix.LocalOutp k input deriv_output dw e.image_size_y e.num_modules_y
    e.num_modules_x e.kernel_size e.padding e.stride e.num_input_channels scale_targets
    (e.scale_gradients / batch_size)
  let db := if e.is_tied then tied.grad_bias else e.grad_bias
  let db :=
    if !e.has_no_bias then
      deriv_output.SumRows db scale_targets (e.scale_gradients / batch_size)
    else db
  let e1 : LocalEdge := { e with toEdge := e.toEdge.IncrementNumGradsReceived }
  if e.is_tied then
    (e1, { tied with grad_weights := dw, grad_bias := db })
  else
    ({ e1 with grad_weights := dw, grad_bias := db }, tied)

/-! ### Concrete edges used in the examples -/

/-- A tensor with no element. -/
def Matrix.empty : Matrix := ⟨0, 0, 0, fun _ => 0⟩

/-- An untied edge base with the given image size, grid and channel counts. -/
def mkBase (image_size_y image_size_x num_modules_y num_modules_x
    num_input_channels num_output_channels : Int) (has_no_bias : Bool) : EdgeWithWeight :=
  { image_size_y := image_size_y, image_size_x := image_size_x,
    num_modules_y := num_modules_y, num_modules_x := num_modules_x,
    num_input_channels := num_input_channels, num_output_channels := num_output_channels,
    is_tied := false, num_grads_received := 0, img_display := none,
    weights := Matrix.empty, bias := Matrix.empty,
    grad_weights := Matrix.empty, grad_bias := Matrix.empty,
    weight_optimizer := ⟨none⟩, bias_optimizer := ⟨none⟩,
    has_no_bias := has_no_bias, scale_gradients := 1 }

/-- A convolutional edge as its constructor leaves it, for a configuration
`(kernel_size, stride, padding, partial_sum, shared_bias)`. -/
def mkConv (base : EdgeWithWeight) (kernel_size stride padding partial_sum : Int)
    (shared_bias : Bool) : ConvEdge :=
  { toEdgeWithWeight := base, kernel_size := kernel_size, stride := stride,
    padding := padding, partial_sum := partial_sum, shared_bias := shared_bias }

/-- A local edge as its constructor leaves it. -/
def mkLocal (base : EdgeWithWeight) (kernel_size stride padding : Int) : LocalEdge :=
  { toEdgeWithWeight := base, kernel_size := kernel_size, stride := stride, padding := padding }

/-! ### Auxiliary definitions of the statements and proofs -/

/-- The edge `e` with the content of its bias tensor replaced. -/
def ConvEdge.withBias (e : ConvEdge) (bias : Matrix) : ConvEdge := { e with bias := bias }

/-- The backend whose kernels return 1 for every element and every module. -/
def unitPrimitives : Primitives :=
  { convUp := fun _ _ _ _ _ _ _ _ _ => 1,
    localUp := fun _ _ _ _ _ _ _ _ _ => 1,
    convOutp := fun _ _ _ _ _ _ _ _ _ _ => 1,
    localOutp := fun _ _ _ _ _ _ _ _ _ _ => 1 }

/-- The edge `e` with the content of its weight-gradient tensor replaced. -/
def ConvEdge.withGradData (e : ConvEdge) (d : Nat → ℚ) : ConvEdge :=
  { e with grad_weights := { e.grad_weights with data := d } }

/-- The edge `e` with its counter `numGradsReceived` set to `n`. -/
def ConvEdge.withCounter (e : ConvEdge) (n : Int) : ConvEdge :=
  { e with num_grads_received := n }

/-- The edge `e` with the content of its weight-gradient tensor replaced. -/
def LocalEdge.withGradData (e : LocalEdge) (d : Nat → ℚ) : LocalEdge :=
  { e with grad_weights := { e.grad_weights with data := d } }

/-- The edge `e` with its counter `numGradsReceived` set to `n`. -/
def LocalEdge.withCounter (e : LocalEdge) (n : Int) : LocalEdge :=
  { e with num_grads_received := n }

/-- The first part of `ConvEdge::ComputeOuter`: the weight gradient. -/
def ConvEdge.outerWeights (k : Primitives) (be : Backend) (e tied : ConvEdge)
    (input deriv_output : Matrix) : Option Matrix :=
  let dw := e.dw tied
  let batch_size : Int := input.rows
  let scale_targets : ℚ := if e.GetNumGradsReceived > 0 then 1 else 0
  if e.partial_sum > 0 then
    let filter_input_size := e.num_input_channels * e.kernel_size * e.kernel_size
    let partial_sums := DIVUP e.num_modules_y e.partial_sum * DIVUP e.num_modules_x e.partial_sum
    (be.GetTemp e.num_output_channels (filter_input_size * partial_sums)).bind fun dw_temp =>
    let dw_temp := Matrix.ConvOutp k input deriv_output dw_temp e.image_size_y e.num_modules_y
      e.num_modules_x e.kernel_size e.padding e.stride e.num_input_channels e.partial_sum 0 1
    (dw_temp.Reshape (e.num_output_channels * filter_input_size) partial_sums).bind fun dw_temp =>
    (dw.Reshape (-1) 1).bind fun dw =>
    (dw_temp.SumCols dw scale_targets (e.scale_gradients / batch_size)).Reshape
      e.num_output_channels filter_input_size
  else
    some (Matrix.ConvOutp k input deriv_output dw e.image_size_y e.num_modules_y
      e.num_modules_x e.kernel_size e.padding e.stride e.num_input_channels e.num_modules_x
      scale_targets (e.scale_gradients / batch_size))

/-- The second part of `ConvEdge::ComputeOuter`: the bias gradient. -/
def ConvEdge.outerBias (be : Backend) (e tied : ConvEdge)
    (input deriv_output : Matrix) : Option Matrix :=
  let batch_size : Int := input.rows
  let scale_targets : ℚ := if e.GetNumGradsReceived > 0 then 1 else 0
  let db := if e.is_tied then tied.grad_bias else e.grad_bias
  if !e.has_no_bias then
    if e.shared_bias then
      (be.GetTemp 1 deriv_output.cols).bind fun db_temp =>
      let db_temp := deriv_output.SumRows db_temp 0 1
      (db_temp.Reshape (-1) e.num_output_channels).bind fun db_temp =>
      some (db_temp.SumRows db scale_targets (e.scale_gradients / batch_size))
    else some (deriv_output.SumRows db scale_targets (e.scale_gradients / batch_size))
  else some db

/-- The gradient that one call of `ConvEdge::ComputeOuter` contributes to
element `i` of a gradient tensor with `rows` rows: the scaled sum of the block
estimates on the partial-sum path, the scaled estimate of the block that the
backend stores at `i` on the direct path. -/
def ConvEdge.weightGrad (k : Primitives) (e : ConvEdge) (rows : Nat)
    (input deriv_output : Matrix) (i : Nat) : ℚ :=
  let g := k.convOutp input deriv_output e.image_size_y e.kernel_size e.padding e.stride
    e.num_input_channels
  let fis := (e.kernel_size * e.kernel_size * e.num_input_channels).toNat
  let sc : ℚ := e.scale_gradients / ((input.rows : Int) : ℚ)
  if e.partial_sum > 0 then
    let n := e.num_output_channels.toNat * fis
    sc * Finset.sum
      (Finset.range (DIVUP e.num_modules_y e.partial_sum
        * DIVUP e.num_modules_x e.partial_sum).toNat) fun c =>
        blockGrad g e.num_modules_y.toNat e.num_modules_x.toNat e.partial_sum.toNat
          ((i + c * n) / n) ((i + c * n) % n)
  else
    sc * blockGrad g e.num_modules_y.toNat e.num_modules_x.toNat e.num_modules_x.toNat
      (i / (rows * fis)) (i % (rows * fis))

/-! ## Predicates and formulas of the specification -/

/-- The local `input_size` of `ConvEdge::SetMemory`: the number of weights of one filter. -/
def ConvEdge.input_size (e : ConvEdge) : Int :=
  e.kernel_size * e.kernel_size * e.num_input_channels

/-- The local `bias_locs` of `ConvEdge::SetMemory`. -/
def ConvEdge.bias_locs (e : ConvEdge) : Int :=
  if e.shared_bias then 1 else e.num_modules_y * e.num_modules_x

/-- The local `input_size` of `LocalEdge::SetMemory`. -/
def LocalEdge.input_size (e : LocalEdge) : Int :=
  e.kernel_size * e.kernel_size * e.num_input_channels * e.num_modules_y * e.num_modules_x

/-- The local `bias_locs` of `LocalEdge::SetMemory`. -/
def LocalEdge.bias_locs (e : LocalEdge) : Int :=
  e.num_modules_y * e.num_modules_x

/-- An edge whose counts are counts: at least one output channel, and a
non-negative number of input channels and of modules in each direction. -/
def EdgeWithWeight.Sized (e : EdgeWithWeight) : Prop :=
  1 ≤ e.num_output_channels ∧ 0 ≤ e.num_input_channels ∧
    0 ≤ e.num_modules_y ∧ 0 ≤ e.num_modules_x

/-- The layout that two-phase memory planning asks of `SetMemory`, for a buffer
`p` that the call reshapes to `p1` and slices into `weights` and `bias`:
`p1` has `oc` rows and `input_size + bias_locs` columns (`input_size` alone
without bias); the column ranges `[0, input_size)` and
`[input_size, input_size + bias_locs)` lie within `p1`; the weights have shape
`(oc, input_size)` and start where `p` starts; the bias has `oc * bias_locs`
elements and starts where the weights end; and weights and bias together have
as many elements as `p`. -/
def Planned (p p1 weights bias : Matrix) (has_no_bias : Bool) (oc input_size bias_locs : Int) :
    Prop :=
  ((p1.rows : Int) = oc ∧
    (p1.cols : Int) = input_size + (if has_no_bias then 0 else bias_locs) ∧
    p1.base = p.base) ∧
  (0 ≤ input_size ∧ input_size ≤ p1.cols ∧
    (has_no_bias = false →
      input_size ≤ input_size + bias_locs ∧ input_size + bias_locs ≤ p1.cols)) ∧
  ((weights.rows : Int) = oc ∧ (weights.cols : Int) = input_size ∧ weights.base = p.base) ∧
  (has_no_bias = false →
    bias.rows = 1 ∧ (bias.cols : Int) = oc * bias_locs ∧
    bias.base = weights.base + weights.GetNumEls) ∧
  weights.GetNumEls + (if has_no_bias then 0 else bias.GetNumEls) = p.GetNumEls

/-- Valid geometry for an image of `h × w` pixels: stride at least 1, padding
non-negative, kernel at least 1 and no larger than the padded image. -/
def ValidGeometry (kernel_size stride padding h w : Int) : Prop :=
  1 ≤ stride ∧ 0 ≤ padding ∧ 1 ≤ kernel_size ∧
    kernel_size ≤ h + 2 * padding ∧ kernel_size ≤ w + 2 * padding

/-- The output-grid formula of the specification, with floor division:
`floor((image_size + 2*padding - kernel_size)/stride) + 1`. -/
def specModules (image_size kernel_size stride padding : Int) : Int :=
  Int.fdiv (image_size + 2 * padding - kernel_size) stride + 1

/-- The field-of-view formula of the specification: `(size, sep, pad1, pad2)`
becomes `(K + S*(size - 1), sep*S, pad1*S + P, pad2*S + effective_right_pad)`
with `effective_right_pad = k*S - (W + P - K)` and
`k = floor((W + 2*P - K)/S)`. -/
def specFOV (K S P W : Int) (t : Int × Int × Int × Int) : Int × Int × Int × Int :=
  let k := Int.fdiv (W + 2 * P - K) S
  let effective_right_pad := k * S - (W + P - K)
  (K + S * (t.1 - 1), t.2.1 * S, t.2.2.1 * S + P, t.2.2.2 * S + effective_right_pad)

/-- An edge with a field of view, seen through the virtual interface
`Edge::FOV`: a convolutional or a local edge. -/
inductive AnyEdge where
  | conv (e : ConvEdge)
  | loc (e : LocalEdge)

/-- The virtual call `FOV`. -/
def AnyEdge.FOV : AnyEdge → Int × Int × Int × Int → Int × Int × Int × Int
  | .conv e, t => e.FOV t
  | .loc e, t => e.FOV t

/-- The geometry `(kernel_size, stride, padding)` of an edge. -/
def AnyEdge.geom : AnyEdge → Int × Int × Int
  | .conv e => (e.kernel_size, e.stride, e.padding)
  | .loc e => (e.kernel_size, e.stride, e.padding)

/-- The components `(size, sep, pad1)` of a field of view. -/
def fov3 (t : Int × Int × Int × Int) : Int × Int × Int := (t.1, t.2.1, t.2.2.1)

/-- The combined geometry of the specification for edge `A = (kA, sA, pA)`
followed by edge `B = (kB, sB, pB)`: kernel `kB + sB*(kA - 1)`, stride `sA*sB`,
padding `pB + sB*pA`. -/
def fovCompose (a b : Int × Int × Int) : Int × Int × Int :=
  (b.1 + b.2.1 * (a.1 - 1), a.2.1 * b.2.1, b.2.2 + b.2.1 * a.2.2)

/-- The shapes that `ComputeOuter` of a convolutional edge expects: counts that
are counts, a gradient tensor with `output_channels * filter_input_size`
elements, and a derivative with one column per output unit. -/
def ConvEdge.GradShaped (e tied : ConvEdge) (deriv_output : Matrix) : Prop :=
  e.toEdgeWithWeight.Sized ∧
  ((e.dw tied).GetNumEls : Int)
    = e.num_output_channels * (e.num_input_channels * e.kernel_size * e.kernel_size) ∧
  (deriv_output.cols : Int) = e.num_output_channels * (e.num_modules_y * e.num_modules_x)

/-- The gradient that one call of `LocalEdge::ComputeOuter` contributes to
element `i` of the gradient tensor. -/
def LocalEdge.weightGrad (k : Primitives) (e : LocalEdge) (input deriv_output : Matrix)
    (i : Nat) : ℚ :=
  e.scale_gradients / ((input.rows : Int) : ℚ)
    * k.localOutp input deriv_output e.image_size_y e.num_modules_y e.num_modules_x
        e.kernel_size e.padding e.stride e.num_input_channels i

/-- A convolutional edge without bias, with one input and one output channel
and kernel 1, on an image of 2 rows and 1 column (`SetImageSize(2, 1)` gives a
grid of 2 × 1 modules), with a gradient tensor of shape `(1, 1)` holding `d`. -/
def rectEdge (partial_sum : Int) (d : ℚ) : ConvEdge :=
  { (mkConv (mkBase 0 0 0 0 1 1 true) 1 1 0 partial_sum false).SetImageSize 2 1 with
    grad_weights := ⟨1, 1, 0, fun _ => d⟩ }

/-- The whole-grid gradient: the sum of the contributions `g y x j` of all the
modules of a grid of `my × mx` modules. -/
def gridGrad (g : Nat → Nat → Nat → ℚ) (my mx : Nat) (j : Nat) : ℚ :=
  Finset.sum (Finset.range my) fun y => Finset.sum (Finset.range mx) fun x => g y x j

/-- The edge `e` with its partial-sum setting replaced. -/
def ConvEdge.withPartialSum (e : ConvEdge) (partial_sum : Int) : ConvEdge :=
  { e with partial_sum := partial_sum }

/-- The floor-division sizing policy of the specification for a grid of `m`
modules on an image of `N` pixels: at least one module, the window of the last
module fits in the padded image, one more module would not fit, and the
trailing pixels left unused are fewer than the stride. -/
def TrailingStrip (m N K S P : Int) : Prop :=
  1 ≤ m ∧ (m - 1) * S + K ≤ N + 2 * P ∧ N + 2 * P < m * S + K ∧
    0 ≤ N + 2 * P - K - (m - 1) * S ∧ N + 2 * P - K - (m - 1) * S < S

/-- The effective right padding that a field-of-view step `fov` with stride `S`
adds: the new `pad2` minus `pad2 * S`. -/
def fovRightPad (fov : Int × Int × Int × Int → Int × Int × Int × Int) (S : Int)
    (t : Int × Int × Int × Int) : Int :=
  (fov t).2.2.2 - t.2.2.2 * S

/-- A batch of one image: a tensor with one row and two columns, holding 1. -/
def onesInput : Matrix := ⟨1, 2, 0, fun _ => 1⟩

/-! ## Theorems -/

theorem tdiv_eq_fdiv_of_valid {a s : Int} (ha : 0 ≤ a) (hs : 1 ≤ s) :
    Int.tdiv a s = Int.fdiv a s :=
  (Int.fdiv_eq_tdiv ha (by omega)).symm

/-- C1: for a valid geometry, `SetImageSize(h, w)` of a convolutional and of a
local edge sets the grid to `floor((h + 2*padding - kernel_size)/stride) + 1` by
`floor((w + 2*padding - kernel_size)/stride) + 1`, whatever the grid was before,
and calling it again with the same arguments changes nothing. -/
theorem SetImageSize_modules (e : ConvEdge) (l : LocalEdge) (h w : Int)
    (he : ValidGeometry e.kernel_size e.stride e.padding h w)
    (hl : ValidGeometry l.kernel_size l.stride l.padding h w) :
    (e.SetImageSize h w).num_modules_y = specModules h e.kernel_size e.stride e.padding ∧
    (e.SetImageSize h w).num_modules_x = specModules w e.kernel_size e.stride e.padding ∧
    (l.SetImageSize h w).num_modules_y = specModules h l.kernel_size l.stride l.padding ∧
    (l.SetImageSize h w).num_modules_x = specModules w l.kernel_size l.stride l.padding ∧
    (e.SetImageSize h w).SetImageSize h w = e.SetImageSize h w ∧
    (l.SetImageSize h w).SetImageSize h w = l.SetImageSize h w := by
  obtain ⟨hs, _, _, hkh, hkw⟩ := he
  obtain ⟨hs', _, _, hkh', hkw'⟩ := hl
  refine ⟨?_, ?_, ?_, ?_, rfl, rfl⟩
  · show Int.tdiv (h + 2 * e.padding - e.kernel_size) e.stride + 1 = _
    rw [tdiv_eq_fdiv_of_valid (by omega) hs]; rfl
  · show Int.tdiv (w + 2 * e.padding - e.kernel_size) e.stride + 1 = _
    rw [tdiv_eq_fdiv_of_valid (by omega) hs]; rfl
  · show Int.tdiv (h + 2 * l.padding - l.kernel_size) l.stride + 1 = _
    rw [tdiv_eq_fdiv_of_valid (by omega) hs']; rfl
  · show Int.tdiv (w + 2 * l.padding - l.kernel_size) l.stride + 1 = _
    rw [tdiv_eq_fdiv_of_valid (by omega) hs']; rfl

/-- C1, the two examples of the specification: an 8 × 8 image with kernel 3,
stride 1, padding 1 gives 8 modules, and with kernel 4, stride 2, padding 0
gives 3 modules. -/
theorem SetImageSize_modules_witness :
    ((mkConv (mkBase 0 0 0 0 3 16 false) 3 1 1 0 true).SetImageSize 8 8).num_modules_y = 8 ∧
    ((mkLocal (mkBase 5 5 2 2 3 16 false) 4 2 0).SetImageSize 8 8).num_modules_x = 3 :=
  ⟨(SetImageSize_modules (mkConv (mkBase 0 0 0 0 3 16 false) 3 1 1 0 true)
      (mkLocal (mkBase 5 5 2 2 3 16 false) 4 2 0) 8 8
      (by unfold ValidGeometry; decide) (by unfold ValidGeometry; decide)).1.trans (by decide),
   (SetImageSize_modules (mkConv (mkBase 0 0 0 0 3 16 false) 3 1 1 0 true)
      (mkLocal (mkBase 5 5 2 2 3 16 false) 4 2 0) 8 8
      (by unfold ValidGeometry; decide)
      (by unfold ValidGeometry; decide)).2.2.2.1.trans (by decide)⟩

/-- C3: after `SetTiedTo`, a convolutional edge and a local edge report a
parameter-memory requirement of 0, also after a later `SetImageSize`. -/
theorem GetParameterMemoryRequirement_tied (a b : ConvEdge) (l m : LocalEdge) (h w : Int) :
    (a.SetTiedTo b).1.GetParameterMemoryRequirement = 0 ∧
    (l.SetTiedTo m).1.GetParameterMemoryRequirement = 0 ∧
    ((a.SetTiedTo b).1.SetImageSize h w).GetParameterMemoryRequirement = 0 ∧
    ((l.SetTiedTo m).1.SetImageSize h w).GetParameterMemoryRequirement = 0 := by
  have ha : (a.SetTiedTo b).1.is_tied = true := by
    unfold ConvEdge.SetTiedTo
    by_cases hp : a.partial_sum = 0 <;> simp [hp, EdgeWithWeight.SetTiedTo]
  have hl : (l.SetTiedTo m).1.is_tied = true := rfl
  have ha' : ((a.SetTiedTo b).1.SetImageSize h w).is_tied = true := ha
  have hl' : ((l.SetTiedTo m).1.SetImageSize h w).is_tied = true := rfl
  refine ⟨?_, ?_, ?_, ?_⟩
  · simp [ConvEdge.GetParameterMemoryRequirement, ha]
  · simp [LocalEdge.GetParameterMemoryRequirement, hl]
  · simp [ConvEdge.GetParameterMemoryRequirement, ha']
  · simp [LocalEdge.GetParameterMemoryRequirement, hl']

/-- C5: after `a.SetTiedTo(b)`, the kernel size, stride, padding and shared-bias
flag of `a` are those of `b`, the partial-sum setting of `a` is that of `b` if
it was 0 and is unchanged otherwise, and `b` is unchanged. -/
theorem ConvEdge_SetTiedTo_fields (a b : ConvEdge) :
    (a.SetTiedTo b).1.kernel_size = b.kernel_size ∧
    (a.SetTiedTo b).1.stride = b.stride ∧
    (a.SetTiedTo b).1.padding = b.padding ∧
    (a.SetTiedTo b).1.shared_bias = b.shared_bias ∧
    (a.SetTiedTo b).1.partial_sum = (if a.partial_sum = 0 then b.partial_sum else a.partial_sum) ∧
    (a.SetTiedTo b).2 = b := by
  unfold ConvEdge.SetTiedTo
  by_cases hp : a.partial_sum = 0 <;> simp [hp]

/-- C6, as stated, fails: for an image of width 1 with kernel 4, stride 2,
padding 0 the C++ quotient `(1 - 4)/2` is `-1`, not `floor(-3/2) = -2`, and the
right padding computed by `FOV` differs from the formula. -/
theorem FOV_floor_counterexample :
    (mkConv (mkBase 1 1 0 0 1 1 false) 4 2 0 0 false).FOV (1, 1, 0, 0) = (4, 2, 0, 1) ∧
    specFOV 4 2 0 1 (1, 1, 0, 0) = (4, 2, 0, -1) ∧
    (mkConv (mkBase 1 1 0 0 1 1 false) 4 2 0 0 false).FOV (1, 1, 0, 0)
      ≠ specFOV 4 2 0 1 (1, 1, 0, 0) := by
  decide

/-- C6, amended: when the stride is at least 1 and the kernel is no larger than
the padded image width, `FOV` of a convolutional and of a local edge is the
formula of the specification, with `k = floor((W + 2*P - K)/S)`; and the two
kinds of edge compute the same function of `(K, S, P, W)`, for every geometry. -/
theorem FOV_eq_specFOV (e : ConvEdge) (l : LocalEdge) (t : Int × Int × Int × Int)
    (hs : 1 ≤ e.stride) (hk : e.kernel_size ≤ e.image_size_x + 2 * e.padding)
    (hs' : 1 ≤ l.stride) (hk' : l.kernel_size ≤ l.image_size_x + 2 * l.padding) :
    e.FOV t = specFOV e.kernel_size e.stride e.padding e.image_size_x t ∧
    l.FOV t = specFOV l.kernel_size l.stride l.padding l.image_size_x t ∧
    ∀ (e' : ConvEdge) (l' : LocalEdge), e'.kernel_size = l'.kernel_size →
      e'.stride = l'.stride → e'.padding = l'.padding → e'.image_size_x = l'.image_size_x →
      e'.FOV t = l'.FOV t := by
  refine ⟨?_, ?_, ?_⟩
  · unfold ConvEdge.FOV specFOV
    rw [tdiv_eq_fdiv_of_valid (by omega) hs]
  · unfold LocalEdge.FOV specFOV
    rw [tdiv_eq_fdiv_of_valid (by omega) hs']
  · intro e' l' h1 h2 h3 h4
    unfold ConvEdge.FOV LocalEdge.FOV
    rw [h1, h2, h3, h4]

/-- C6, amended, on the 8-pixel image with kernel 4, stride 2 and padding 0. -/
theorem FOV_eq_specFOV_witness :
    (mkConv (mkBase 8 8 3 3 3 16 false) 4 2 0 0 false).FOV (1, 1, 0, 0) = (4, 2, 0, 0) ∧
    (mkLocal (mkBase 8 8 3 3 3 16 false) 4 2 0).FOV (1, 1, 0, 0) = (4, 2, 0, 0) :=
  ⟨(FOV_eq_specFOV (mkConv (mkBase 8 8 3 3 3 16 false) 4 2 0 0 false)
      (mkLocal (mkBase 8 8 3 3 3 16 false) 4 2 0) (1, 1, 0, 0)
      (by decide) (by decide) (by decide) (by decide)).1.trans (by decide),
   (FOV_eq_specFOV (mkConv (mkBase 8 8 3 3 3 16 false) 4 2 0 0 false)
      (mkLocal (mkBase 8 8 3 3 3 16 false) 4 2 0) (1, 1, 0, 0)
      (by decide) (by decide) (by decide) (by decide)).2.1.trans (by decide)⟩

theorem AnyEdge_fov3 (a : AnyEdge) (t : Int × Int × Int × Int) :
    fov3 (a.FOV t) =
      (a.geom.1 + a.geom.2.1 * (t.1 - 1), t.2.1 * a.geom.2.1, t.2.2.1 * a.geom.2.1 + a.geom.2.2) := by
  cases a <;> rfl

/-- C10: on `(size, sep, pad1)`, the field of view of edge `a` followed by that
of edge `b` is the field of view of one edge with kernel `kB + sB*(kA - 1)`,
stride `sA*sB` and padding `pB + sB*pA`; along a chain of three edges the two
ways of grouping give the same combined geometry and the same field of view. -/
theorem FOV_compose (a b c ab abc abc' : AnyEdge) (t : Int × Int × Int × Int)
    (hab : ab.geom = fovCompose a.geom b.geom)
    (h1 : abc.geom = fovCompose (fovCompose a.geom b.geom) c.geom)
    (h2 : abc'.geom = fovCompose a.geom (fovCompose b.geom c.geom)) :
    fov3 (b.FOV (a.FOV t)) = fov3 (ab.FOV t) ∧
    fov3 (c.FOV (b.FOV (a.FOV t))) = fov3 (abc.FOV t) ∧
    fov3 (c.FOV (b.FOV (a.FOV t))) = fov3 (abc'.FOV t) ∧
    fovCompose (fovCompose a.geom b.geom) c.geom
      = fovCompose a.geom (fovCompose b.geom c.geom) := by
  have e1 : ∀ (x : AnyEdge) (u : Int × Int × Int × Int),
      (x.FOV u).1 = (fov3 (x.FOV u)).1 ∧ (x.FOV u).2.1 = (fov3 (x.FOV u)).2.1 ∧
      (x.FOV u).2.2.1 = (fov3 (x.FOV u)).2.2 := fun _ _ => ⟨rfl, rfl, rfl⟩
  refine ⟨?_, ?_, ?_, ?_⟩
  · rw [AnyEdge_fov3 b, AnyEdge_fov3 ab, hab, (e1 a t).1, (e1 a t).2.1, (e1 a t).2.2,
      AnyEdge_fov3 a]
    simp only [fovCompose, Prod.mk.injEq]
    refine ⟨by ring, by ring, by ring⟩
  · rw [AnyEdge_fov3 c, AnyEdge_fov3 abc, h1, (e1 b _).1, (e1 b _).2.1, (e1 b _).2.2,
      AnyEdge_fov3 b, (e1 a t).1, (e1 a t).2.1, (e1 a t).2.2, AnyEdge_fov3 a]
    simp only [fovCompose, Prod.mk.injEq]
    refine ⟨by ring, by ring, by ring⟩
  · rw [AnyEdge_fov3 c, AnyEdge_fov3 abc', h2, (e1 b _).1, (e1 b _).2.1, (e1 b _).2.2,
      AnyEdge_fov3 b, (e1 a t).1, (e1 a t).2.1, (e1 a t).2.2, AnyEdge_fov3 a]
    simp only [fovCompose, Prod.mk.injEq]
    refine ⟨by ring, by ring, by ring⟩
  · simp only [fovCompose, Prod.mk.injEq]
    refine ⟨by ring, by ring, by ring⟩

/-- C10, the example of the specification: `E1 = (k=3, s=1, p=1)` then
`E2 = (k=3, s=2, p=1)` applied to `(size=1, sep=1, pad1=0)` gives
`(size=7, sep=2, pad1=3)`, which is one step with the combined edge
`(k=7, s=2, p=3)`. -/
theorem FOV_compose_witness :
    fov3 ((mkConv (mkBase 8 8 8 8 3 16 false) 3 2 1 0 false).FOV
      ((mkConv (mkBase 8 8 8 8 3 16 false) 3 1 1 0 false).FOV (1, 1, 0, 0))) = (7, 2, 3) ∧
    fov3 ((mkLocal (mkBase 8 8 8 8 3 16 false) 7 2 3).FOV (1, 1, 0, 0)) = (7, 2, 3) :=
  have h := FOV_compose (.conv (mkConv (mkBase 8 8 8 8 3 16 false) 3 1 1 0 false))
    (.conv (mkConv (mkBase 8 8 8 8 3 16 false) 3 2 1 0 false))
    (.loc (mkLocal (mkBase 8 8 8 8 3 16 false) 1 1 0))
    (.loc (mkLocal (mkBase 8 8 8 8 3 16 false) 7 2 3))
    (.loc (mkLocal (mkBase 8 8 8 8 3 16 false) 7 2 3))
    (.loc (mkLocal (mkBase 8 8 8 8 3 16 false) 7 2 3)) (1, 1, 0, 0)
    (by decide) (by decide) (by decide)
  ⟨h.1.trans (by decide), by decide⟩

theorem toSizeT_of_nonneg {x : Int} (h0 : 0 ≤ x) (h1 : x < 2 ^ 64) : (toSizeT x : Int) = x := by
  unfold toSizeT
  rw [Int.emod_eq_of_lt h0 h1]
  exact Int.toNat_of_nonneg h0

theorem plan_core (p : Matrix) (oc I B : Int) (nb : Bool) (hoc : 1 ≤ oc) (hI : 0 ≤ I)
    (hB : 0 ≤ B) (hp : (p.GetNumEls : Int) = oc * (I + if nb then 0 else B)) :
    ∃ p1 w, p.Reshape oc (-1) = some p1 ∧ p1.GetSlice 0 I = some w ∧
      (nb = true → ∀ b, Planned p p1 w b nb oc I B) ∧
      (nb = false → ∃ b b1, p1.GetSlice I (I + B) = some b ∧ b.Reshape 1 (-1) = some b1 ∧
        Planned p p1 w b1 nb oc I B) := by
  lift oc to ℕ using (by omega)
  lift I to ℕ using hI
  lift B to ℕ using hB
  have hoc' : 0 < oc := by exact_mod_cast hoc
  obtain ⟨C, hC⟩ : ∃ C : ℕ, C = I + (if nb then 0 else B) := ⟨_, rfl⟩
  have hn : p.rows * p.cols = oc * C := by
    have h : ((p.cols * p.rows : ℕ) : ℤ) = ((oc * C : ℕ) : ℤ) := by
      rw [show p.cols * p.rows = p.GetNumEls from rfl, hp, hC]
      cases nb <;> simp
    rw [Nat.mul_comm]
    exact_mod_cast h
  have hR : p.Reshape oc (-1) = some { p with rows := oc, cols := C } := by
    unfold Matrix.Reshape
    have h1 : ¬ ((oc : ℤ) = -1) := by omega
    have h2 : (0 : ℤ) < oc := by exact_mod_cast hoc'
    have h3 : (((oc * C : ℕ) : ℤ)) % (oc : ℤ) = 0 := by
      push_cast
      exact Int.mul_emod_right _ _
    have h4 : (((oc * C : ℕ) : ℤ)) / (oc : ℤ) = C := by
      push_cast
      exact Int.mul_ediv_cancel_left _ (by omega)
    simp only [hn, h1, h2, h3, h4, if_false, if_true, and_self, Int.toNat_ofNat]
  have hIC : I ≤ C := by rw [hC]; omega
  have hW : ({ p with rows := oc, cols := C } : Matrix).GetSlice 0 I
      = some { rows := oc, cols := I, base := p.base, data := p.data } := by
    unfold Matrix.GetSlice
    have h1 : (0 : ℤ) ≤ 0 ∧ (0 : ℤ) ≤ (I : ℤ) ∧ (I : ℤ) ≤ (C : ℕ) := ⟨le_refl _, by omega, by omega⟩
    simp [h1]
  have hels : oc * I + (if nb then 0 else 1 * (oc * B)) = p.cols * p.rows := by
    rw [Nat.mul_comm p.cols, hn, hC]
    cases nb <;> simp [Nat.mul_add]
  refine ⟨_, _, hR, hW, ?_, ?_⟩
  · intro hnb b
    subst hnb
    simp only [if_true, add_zero] at hC hels
    refine ⟨⟨rfl, by simp [hC], rfl⟩, ⟨by omega, by simp [hC], by simp⟩, ⟨rfl, rfl, rfl⟩,
      by simp, ?_⟩
    simpa [Matrix.GetNumEls, Nat.mul_comm] using hels
  · intro hnb
    subst hnb
    simp only [Bool.false_eq_true, if_false] at hC hels
    have hB1 : ({ p with rows := oc, cols := C } : Matrix).GetSlice I (I + B)
        = some { rows := oc, cols := B, base := p.base + I * oc,
                 data := fun i => p.data (i + I * oc) } := by
      unfold Matrix.GetSlice
      have h1 : (0 : ℤ) ≤ (I : ℤ) ∧ (I : ℤ) ≤ (I : ℤ) + (B : ℤ) ∧ (I : ℤ) + (B : ℤ) ≤ (C : ℕ) :=
        ⟨by omega, by omega, by omega⟩
      simp [h1]
    have hB2 : ({ rows := oc, cols := B, base := p.base + I * oc,
                  data := fun i => p.data (i + I * oc) } : Matrix).Reshape 1 (-1)
        = some { rows := 1, cols := oc * B, base := p.base + I * oc,
                 data := fun i => p.data (i + I * oc) } := by
      unfold Matrix.Reshape
      have h : ((oc : ℤ) * (B : ℤ)).toNat = oc * B := by
        rw [← Nat.cast_mul, Int.toNat_ofNat]
      simp [h]
    refine ⟨_, _, hB1, hB2, ⟨rfl, by simp [hC], rfl⟩, ⟨by omega, by simp [hC], by simp [hC]⟩,
      ⟨rfl, rfl, rfl⟩, ?_, ?_⟩
    · intro _
      exact ⟨rfl, by simp, by simp [Matrix.GetNumEls, Nat.mul_comm]⟩
    · simpa [Matrix.GetNumEls, Nat.mul_comm] using hels

theorem ConvEdge_SetMemory_planned (e : ConvEdge) (p : Matrix) (he : e.is_tied = false)
    (hs : e.toEdgeWithWeight.Sized)
    (hfit : e.num_output_channels
      * (e.input_size + if e.has_no_bias then 0 else e.bias_locs) < 2 ^ 64)
    (hp : p.GetNumEls = e.GetParameterMemoryRequirement) :
    ∃ e1 p1, e.SetMemory p = some (e1, p1) ∧
      Planned p p1 e1.weights e1.bias e.has_no_bias e.num_output_channels e.input_size
        e.bias_locs := by
  obtain ⟨hoc, hic, hmy, hmx⟩ := hs
  have hI : 0 ≤ e.input_size := mul_nonneg (mul_self_nonneg _) hic
  have hB : 0 ≤ e.bias_locs := by
    unfold ConvEdge.bias_locs
    split
    · decide
    · exact mul_nonneg hmy hmx
  have hT : 0 ≤ e.num_output_channels
      * (e.input_size + if e.has_no_bias then 0 else e.bias_locs) := by
    apply mul_nonneg (by omega)
    split <;> omega
  have hp' : (p.GetNumEls : Int) = e.num_output_channels
      * (e.input_size + if e.has_no_bias then 0 else e.bias_locs) := by
    rw [hp, ConvEdge.GetParameterMemoryRequirement]
    simp only [he, Bool.false_eq_true, if_false]
    exact toSizeT_of_nonneg hT hfit
  obtain ⟨p1, w, hR, hW, hnb, hb⟩ := plan_core p _ _ _ e.has_no_bias hoc hI hB hp'
  unfold ConvEdge.SetMemory
  simp only [he, Bool.false_eq_true, if_false]
  change ∃ e1 p1, ((p.Reshape e.num_output_channels (-1)).bind fun p1 =>
    (p1.GetSlice 0 e.input_size).bind fun w => _) = some (e1, p1) ∧ _
  rw [hR, Option.some_bind, hW, Option.some_bind]
  cases hv : e.has_no_bias
  · obtain ⟨b, b1, hb1, hb2, hpl⟩ := hb hv
    rw [hv] at hpl
    change p1.GetSlice e.input_size (e.input_size + e.bias_locs) = some b at hb1
    simp only [hv, Bool.not_false, if_true]
    unfold ConvEdge.input_size ConvEdge.bias_locs at hb1
    rw [hb1, Option.some_bind, hb2, Option.some_bind, Option.some_bind]
    refine ⟨_, _, rfl, ?_⟩
    split <;> exact hpl
  · have hpl := hnb hv e.bias
    rw [hv] at hpl
    simp only [hv, Bool.not_true, Bool.false_eq_true, if_false, Option.some_bind]
    refine ⟨_, _, rfl, ?_⟩
    split <;> exact hpl

theorem LocalEdge_SetMemory_planned (e : LocalEdge) (p : Matrix) (he : e.is_tied = false)
    (hs : e.toEdgeWithWeight.Sized)
    (hfit : e.num_output_channels
      * (e.input_size + if e.has_no_bias then 0 else e.bias_locs) < 2 ^ 64)
    (hp : p.GetNumEls = e.GetParameterMemoryRequirement) :
    ∃ e1 p1, e.SetMemory p = some (e1, p1) ∧
      Planned p p1 e1.weights e1.bias e.has_no_bias e.num_output_channels e.input_size
        e.bias_locs := by
  obtain ⟨hoc, hic, hmy, hmx⟩ := hs
  have hI : 0 ≤ e.input_size :=
    mul_nonneg (mul_nonneg (mul_nonneg (mul_self_nonneg _) hic) hmy) hmx
  have hB : 0 ≤ e.bias_locs := mul_nonneg hmy hmx
  have hT : 0 ≤ e.num_output_channels
      * (e.input_size + if e.has_no_bias then 0 else e.bias_locs) := by
    apply mul_nonneg (by omega)
    split <;> omega
  have hp' : (p.GetNumEls : Int) = e.num_output_channels
      * (e.input_size + if e.has_no_bias then 0 else e.bias_locs) := by
    rw [hp, LocalEdge.GetParameterMemoryRequirement]
    simp only [he, Bool.false_eq_true, if_false]
    exact toSizeT_of_nonneg hT hfit
  obtain ⟨p1, w, hR, hW, hnb, hb⟩ := plan_core p _ _ _ e.has_no_bias hoc hI hB hp'
  unfold LocalEdge.SetMemory
  simp only [he, Bool.false_eq_true, if_false]
  change ∃ e1 p1, ((p.Reshape e.num_output_channels (-1)).bind fun p1 =>
    (p1.GetSlice 0 e.input_size).bind fun w => _) = some (e1, p1) ∧ _
  rw [hR, Option.some_bind, hW, Option.some_bind]
  cases hv : e.has_no_bias
  · obtain ⟨b, b1, hb1, hb2, hpl⟩ := hb hv
    rw [hv] at hpl
    simp only [hv, Bool.not_false, if_true]
    unfold LocalEdge.input_size LocalEdge.bias_locs at hb1
    rw [hb1, Option.some_bind, hb2, Option.some_bind, Option.some_bind]
    refine ⟨_, _, rfl, ?_⟩
    split <;> exact hpl
  · have hpl := hnb hv e.bias
    rw [hv] at hpl
    simp only [hv, Bool.not_true, Bool.false_eq_true, if_false, Option.some_bind]
    refine ⟨_, _, rfl, ?_⟩
    split <;> exact hpl

theorem Planned_bias_els {p p1 w b : Matrix} {oc I B : Int}
    (h : Planned p p1 w b false oc I B) : (b.GetNumEls : Int) = oc * B := by
  obtain ⟨_, _, _, hb, _⟩ := h
  obtain ⟨h1, h2, _⟩ := hb rfl
  simp [Matrix.GetNumEls, h1, h2]

/-- C4: an untied convolutional edge `e` and an untied local edge `l`, with at
least one output channel and non-negative counts, each handed a buffer of
exactly `GetParameterMemoryRequirement()` elements: `SetMemory` succeeds and
lays the buffer out as planned (`Planned`): `oc` rows and
`input_size + bias_locs` columns, weight and bias column ranges within the
buffer, adjacent and covering it; the weights have shape
`(oc, kernel_size^2 * input_channels)` for the convolutional edge and
`(oc, kernel_size^2 * input_channels * locations)` for the local edge, and the
bias has `oc` elements when shared and `oc * locations` elements otherwise. -/
theorem SetMemory_two_phase (e : ConvEdge) (l : LocalEdge) (p q : Matrix)
    (he : e.is_tied = false) (hes : e.toEdgeWithWeight.Sized)
    (hefit : e.num_output_channels
      * (e.input_size + if e.has_no_bias then 0 else e.bias_locs) < 2 ^ 64)
    (hp : p.GetNumEls = e.GetParameterMemoryRequirement)
    (hl : l.is_tied = false) (hls : l.toEdgeWithWeight.Sized)
    (hlfit : l.num_output_channels
      * (l.input_size + if l.has_no_bias then 0 else l.bias_locs) < 2 ^ 64)
    (hq : q.GetNumEls = l.GetParameterMemoryRequirement) :
    (∃ e1 p1, e.SetMemory p = some (e1, p1) ∧
      Planned p p1 e1.weights e1.bias e.has_no_bias e.num_output_channels
        (e.kernel_size * e.kernel_size * e.num_input_channels)
        (if e.shared_bias then 1 else e.num_modules_y * e.num_modules_x) ∧
      (e1.weights.rows : Int) = e.num_output_channels ∧
      (e1.weights.cols : Int) = e.kernel_size ^ 2 * e.num_input_channels ∧
      (e.has_no_bias = false → (e1.bias.GetNumEls : Int) =
        if e.shared_bias then e.num_output_channels
        else e.num_output_channels * (e.num_modules_y * e.num_modules_x))) ∧
    (∃ l1 q1, l.SetMemory q = some (l1, q1) ∧
      Planned q q1 l1.weights l1.bias l.has_no_bias l.num_output_channels
        (l.kernel_size * l.kernel_size * l.num_input_channels
          * l.num_modules_y * l.num_modules_x)
        (l.num_modules_y * l.num_modules_x) ∧
      (l1.weights.rows : Int) = l.num_output_channels ∧
      (l1.weights.cols : Int) = l.kernel_size ^ 2 * l.num_input_channels
        * (l.num_modules_y * l.num_modules_x) ∧
      (l.has_no_bias = false → (l1.bias.GetNumEls : Int) =
        l.num_output_channels * (l.num_modules_y * l.num_modules_x))) := by
  constructor
  · obtain ⟨e1, p1, h1, h2⟩ := ConvEdge_SetMemory_planned e p he hes hefit hp
    refine ⟨e1, p1, h1, h2, h2.2.2.1.1, ?_, ?_⟩
    · rw [h2.2.2.1.2.1, ConvEdge.input_size]; ring
    · intro hb
      rw [hb] at h2
      rw [Planned_bias_els h2, ConvEdge.bias_locs]
      split <;> simp
  · obtain ⟨l1, q1, h1, h2⟩ := LocalEdge_SetMemory_planned l q hl hls hlfit hq
    refine ⟨l1, q1, h1, h2, h2.2.2.1.1, ?_, ?_⟩
    · rw [h2.2.2.1.2.1, LocalEdge.input_size]; ring
    · intro hb
      rw [hb] at h2
      rw [Planned_bias_els h2, LocalEdge.bias_locs]

/-- C4 on the 8 × 8 image with 3 input and 16 output channels, kernel 3: a
convolutional edge with a shared bias needs `16 * (27 + 1)` elements and a
local edge `16 * (27 * 64 + 64)`. -/
theorem SetMemory_two_phase_witness :
    (∃ e1 p1, (mkConv (mkBase 8 8 8 8 3 16 false) 3 1 1 0 true).SetMemory ⟨1, 448, 0, fun _ => 0⟩
        = some (e1, p1) ∧
      (e1.weights.rows : Int) = 16 ∧ (e1.weights.cols : Int) = 27 ∧
      (e1.bias.GetNumEls : Int) = 16) ∧
    (∃ l1 q1, (mkLocal (mkBase 8 8 8 8 3 16 false) 3 1 1).SetMemory ⟨1, 28672, 0, fun _ => 0⟩
        = some (l1, q1) ∧
      (l1.weights.rows : Int) = 16 ∧ (l1.weights.cols : Int) = 1728 ∧
      (l1.bias.GetNumEls : Int) = 1024) := by
  have h := SetMemory_two_phase (mkConv (mkBase 8 8 8 8 3 16 false) 3 1 1 0 true)
    (mkLocal (mkBase 8 8 8 8 3 16 false) 3 1 1) ⟨1, 448, 0, fun _ => 0⟩
    ⟨1, 28672, 0, fun _ => 0⟩ rfl (by unfold EdgeWithWeight.Sized; decide) (by decide)
    (by decide) rfl (by unfold EdgeWithWeight.Sized; decide) (by decide) (by decide)
  obtain ⟨⟨e1, p1, h1, _, h3, h4, h5⟩, ⟨l1, q1, g1, _, g3, g4, g5⟩⟩ := h
  exact ⟨⟨e1, p1, h1, h3, h4, h5 rfl⟩, ⟨l1, q1, g1, g3, g4, g5 rfl⟩⟩

/-- C9, as stated, fails: a tied convolutional edge with `partial_sum = 1` on a
2 × 2 grid registers 4 scratch elements and 4 ones in `SetGradMemory`, on a
backend that had none registered. -/
theorem tied_SetGradMemory_registers :
    ((mkConv (mkBase 2 2 2 2 1 1 false) 1 1 0 1 true).SetTiedTo
      (mkConv (mkBase 2 2 2 2 1 1 false) 1 1 0 0 true)).1.is_tied = true ∧
    ((((mkConv (mkBase 2 2 2 2 1 1 false) 1 1 0 1 true).SetTiedTo
      (mkConv (mkBase 2 2 2 2 1 1 false) 1 1 0 0 true)).1.SetGradMemory
        ⟨1, 2, 0, fun _ => 0⟩ ⟨0, 0, fun _ => 0⟩).map
      fun r => (r.2.2.temp_size, r.2.2.ones_size)) = some (4, 4) := by
  decide

/-- C9, amended: for a tied convolutional edge and a tied local edge,
`SetMemory` changes nothing; `SetGradMemory` of the local edge changes nothing;
`SetGradMemory` of the convolutional edge leaves the edge and the buffer
unchanged and changes the backend only by registering the scratch memory of
the partial sums when `partial_sum > 0`, so that it changes nothing when
`partial_sum <= 0`. -/
theorem tied_SetMemory_SetGradMemory (e : ConvEdge) (l : LocalEdge) (p : Matrix) (be : Backend)
    (he : e.is_tied = true) (hl : l.is_tied = true) :
    e.SetMemory p = some (e, p) ∧
    l.SetMemory p = some (l, p) ∧
    l.SetGradMemory p be = some (l, p, be) ∧
    e.SetGradMemory p be = some (e, p,
      if e.partial_sum > 0 then
        (be.RegisterTempMemory (e.num_output_channels
            * (e.kernel_size * e.kernel_size * e.num_input_channels)
            * (DIVUP e.num_modules_y e.partial_sum * DIVUP e.num_modules_x e.partial_sum))).RegisterOnes
          (DIVUP e.num_modules_y e.partial_sum * DIVUP e.num_modules_x e.partial_sum)
      else be) ∧
    (e.partial_sum ≤ 0 → e.SetGradMemory p be = some (e, p, be)) := by
  have h4 : e.SetGradMemory p be = some (e, p,
      if e.partial_sum > 0 then
        (be.RegisterTempMemory (e.num_output_channels
            * (e.kernel_size * e.kernel_size * e.num_input_channels)
            * (DIVUP e.num_modules_y e.partial_sum * DIVUP e.num_modules_x e.partial_sum))).RegisterOnes
          (DIVUP e.num_modules_y e.partial_sum * DIVUP e.num_modules_x e.partial_sum)
      else be) := by
    simp [ConvEdge.SetGradMemory, he]
  refine ⟨by simp [ConvEdge.SetMemory, he], by simp [LocalEdge.SetMemory, hl],
    by simp [LocalEdge.SetGradMemory, hl], h4, ?_⟩
  intro hps
  rw [h4, if_neg (by omega)]

/-- C9, amended, on a convolutional edge and a local edge tied by `SetTiedTo`
(the convolutional one with `partial_sum = 0`). -/
theorem tied_SetMemory_SetGradMemory_witness :
    (((mkConv (mkBase 2 2 2 2 1 1 false) 1 1 0 0 true).SetTiedTo
      (mkConv (mkBase 2 2 2 2 1 1 false) 1 1 0 0 true)).1.SetGradMemory
        ⟨1, 2, 0, fun _ => 0⟩ ⟨0, 0, fun _ => 0⟩)
      = some (((mkConv (mkBase 2 2 2 2 1 1 false) 1 1 0 0 true).SetTiedTo
          (mkConv (mkBase 2 2 2 2 1 1 false) 1 1 0 0 true)).1,
        ⟨1, 2, 0, fun _ => 0⟩, ⟨0, 0, fun _ => 0⟩) :=
  (tied_SetMemory_SetGradMemory
    ((mkConv (mkBase 2 2 2 2 1 1 false) 1 1 0 0 true).SetTiedTo
      (mkConv (mkBase 2 2 2 2 1 1 false) 1 1 0 0 true)).1
    ((mkLocal (mkBase 2 2 2 2 1 1 false) 1 1 0).SetTiedTo
      (mkLocal (mkBase 2 2 2 2 1 1 false) 1 1 0)).1
    ⟨1, 2, 0, fun _ => 0⟩ ⟨0, 0, fun _ => 0⟩ rfl rfl).2.2.2.2 (by decide)

theorem Reshape_infer_rows (m : Matrix) (r c : ℕ) (hc : 0 < c) (h : m.rows * m.cols = r * c) :
    m.Reshape (-1) (c : ℤ) = some { m with rows := r, cols := c } := by
  unfold Matrix.Reshape
  have h2 : (0 : ℤ) < c := by exact_mod_cast hc
  have h3 : (((r * c : ℕ) : ℤ)) % (c : ℤ) = 0 := by
    push_cast
    exact Int.mul_emod_left _ _
  have h4 : (((r * c : ℕ) : ℤ)) / (c : ℤ) = r := by
    push_cast
    exact Int.mul_ediv_cancel _ (by omega)
  simp only [h, h2, h3, h4, if_true, and_self, Int.toNat_ofNat]

theorem unit_index_div (b c l R L : ℕ) (hb : b < R) (hl : l < L) :
    (b + (c * L + l) * R) / (R * L) = c := by
  have h1 : b + l * R < R * L := by
    have : l * R + R ≤ L * R := by
      have := Nat.mul_le_mul_right R (Nat.succ_le_of_lt hl)
      rwa [Nat.succ_mul] at this
    rw [Nat.mul_comm R L]
    omega
  have h2 : b + (c * L + l) * R = (b + l * R) + c * (R * L) := by ring
  rw [h2, Nat.add_mul_div_right _ _ (by
    rcases Nat.eq_zero_or_pos (R * L) with h | h
    · rw [h] at h1; omega
    · exact h), Nat.div_eq_of_lt h1, Nat.zero_add]

theorem unit_index_div_rows (b j R : ℕ) (hb : b < R) : (b + j * R) / R = j := by
  rw [Nat.add_mul_div_right _ _ (by omega), Nat.div_eq_of_lt hb, Nat.zero_add]

theorem ComputeUp_shared (k : Primitives) (e tied : ConvEdge) (input output : Matrix)
    (overwrite : Bool) (oc my mx : ℕ) (hb : e.has_no_bias = false) (hsh : e.shared_bias = true)
    (hoc : e.num_output_channels = oc) (hmy : e.num_modules_y = my) (hmx : e.num_modules_x = mx)
    (hpos : 0 < oc ∧ 0 < my ∧ 0 < mx) (hcols : output.cols = oc * (my * mx)) :
    e.ComputeUp k tied input output overwrite = some
      { output with
        data := fun i =>
          (Matrix.ConvUp k input (if e.is_tied then tied.weights else e.weights) output
            e.image_size_y e.num_modules_y e.num_modules_x e.padding e.stride
            e.num_input_channels (if overwrite then 0 else 1)).data i
          + (if e.is_tied then tied.bias else e.bias).data (i / (output.rows * (my * mx))) } := by
  obtain ⟨h1, h2, h3⟩ := hpos
  unfold ConvEdge.ComputeUp
  simp only [hb, hsh, Bool.not_false, if_true]
  rw [hoc, hmy, hmx]
  have hR1 := Reshape_infer_rows
    (Matrix.ConvUp k input (if e.is_tied then tied.weights else e.weights) output
      e.image_size_y my mx e.padding e.stride e.num_input_channels (if overwrite then 0 else 1))
    (output.rows * (my * mx)) oc h1
    (by show output.rows * output.cols = _; rw [hcols]; ring)
  rw [hR1, Option.some_bind]
  have hc : ((oc : ℤ) * my * mx) = ((oc * (my * mx) : ℕ) : ℤ) := by push_cast; ring
  rw [hc]
  have hR2 := Reshape_infer_rows
    (({ Matrix.ConvUp k input (if e.is_tied then tied.weights else e.weights) output
        e.image_size_y my mx e.padding e.stride e.num_input_channels (if overwrite then 0 else 1)
        with rows := output.rows * (my * mx), cols := oc } : Matrix).AddRowVec
      (if e.is_tied then tied.bias else e.bias))
    output.rows (oc * (my * mx)) (Nat.mul_pos h1 (Nat.mul_pos h2 h3))
    (by show output.rows * (my * mx) * oc = _; ring)
  rw [hR2]
  simp only [Matrix.AddRowVec, Matrix.ConvUp, hcols, hmy, hmx]

/-- C8: `ComputeUp` of a convolutional edge with a bias, on an output tensor
with one column per output unit (column `c * locations + l` for channel `c` and
location `l`), returns a tensor of the same shape in which the unit
`(b, c, l)` is the result of the convolution plus `bias[c]` when the bias is
shared, and plus `bias[c * locations + l]` otherwise; with another bias tensor
the output of a unit is the same as soon as the two tensors agree on the bias
value of that unit. -/
theorem ComputeUp_bias (k : Primitives) (e tied : ConvEdge) (input output : Matrix)
    (overwrite : Bool) (oc my mx : ℕ) (hb : e.has_no_bias = false)
    (hoc : e.num_output_channels = oc) (hmy : e.num_modules_y = my) (hmx : e.num_modules_x = mx)
    (hpos : 0 < oc ∧ 0 < my ∧ 0 < mx) (hcols : output.cols = oc * (my * mx)) :
    ∃ out, e.ComputeUp k tied input output overwrite = some out ∧
      out.rows = output.rows ∧ out.cols = output.cols ∧
      (∀ b c l, b < output.rows → c < oc → l < my * mx →
        out.data (b + (c * (my * mx) + l) * output.rows) =
          (Matrix.ConvUp k input (if e.is_tied then tied.weights else e.weights) output
            e.image_size_y e.num_modules_y e.num_modules_x e.padding e.stride
            e.num_input_channels (if overwrite then 0 else 1)).data
              (b + (c * (my * mx) + l) * output.rows)
          + (if e.shared_bias then (if e.is_tied then tied.bias else e.bias).data c
             else (if e.is_tied then tied.bias else e.bias).data (c * (my * mx) + l))) ∧
      (∀ bias2 : Matrix, ∃ out2,
        (e.withBias bias2).ComputeUp k (tied.withBias bias2) input output overwrite = some out2 ∧
        ∀ b c l, b < output.rows → c < oc → l < my * mx →
          (if e.shared_bias then bias2.data c else bias2.data (c * (my * mx) + l))
            = (if e.shared_bias then (if e.is_tied then tied.bias else e.bias).data c
               else (if e.is_tied then tied.bias else e.bias).data (c * (my * mx) + l)) →
          out2.data (b + (c * (my * mx) + l) * output.rows)
            = out.data (b + (c * (my * mx) + l) * output.rows)) := by
  cases hsh : e.shared_bias
  · have hns : ∀ (e' t' : ConvEdge), e'.has_no_bias = false → e'.shared_bias = false →
        e'.ComputeUp k t' input output overwrite = some
          ((Matrix.ConvUp k input (if e'.is_tied then t'.weights else e'.weights) output
            e'.image_size_y e'.num_modules_y e'.num_modules_x e'.padding e'.stride
            e'.num_input_channels (if overwrite then 0 else 1)).AddRowVec
              (if e'.is_tied then t'.bias else e'.bias)) := by
      intro e' t' h1 h2
      unfold ConvEdge.ComputeUp
      simp only [h1, h2, Bool.not_false, if_true, Bool.false_eq_true, if_false]
    refine ⟨_, hns e tied hb hsh, rfl, rfl, ?_, ?_⟩
    · intro b c l hbr _ _
      simp only [Matrix.AddRowVec, Matrix.ConvUp, Bool.false_eq_true, if_false]
      rw [unit_index_div_rows _ _ _ hbr]
    · intro bias2
      refine ⟨_, hns (e.withBias bias2) (tied.withBias bias2) hb hsh, ?_⟩
      intro b c l hbr _ _ heq
      simp only [Bool.false_eq_true, if_false] at heq
      simp only [Matrix.AddRowVec, Matrix.ConvUp, ConvEdge.withBias]
      rw [unit_index_div_rows _ _ _ hbr]
      have : (if e.is_tied = true then bias2 else bias2) = bias2 := by split <;> rfl
      rw [this, heq]
  · refine ⟨_, ComputeUp_shared k e tied input output overwrite oc my mx hb hsh hoc hmy hmx
      hpos hcols, rfl, rfl, ?_, ?_⟩
    · intro b c l hbr _ hl
      simp only [if_true]
      rw [unit_index_div b c l _ _ hbr hl]
    · intro bias2
      refine ⟨_, ComputeUp_shared k (e.withBias bias2) (tied.withBias bias2) input output
        overwrite oc my mx hb hsh hoc hmy hmx hpos hcols, ?_⟩
      intro b c l hbr _ hl heq
      simp only [if_true] at heq
      simp only [ConvEdge.withBias]
      rw [unit_index_div b c l _ _ hbr hl]
      have : (if e.is_tied = true then bias2 else bias2) = bias2 := by split <;> rfl
      rw [this, heq]

/-- C8 on a batch of two images, two output channels and a 2 × 2 grid, with the
shared bias `bias[c] = c`: the unit of image 1, channel 1, location 2 receives
the convolution result 1 plus `bias[1] = 1`. -/
theorem ComputeUp_bias_witness :
    ∃ out, ((mkConv (mkBase 2 2 2 2 1 2 false) 1 1 0 0 true).withBias
        ⟨1, 2, 0, fun c => c⟩).ComputeUp unitPrimitives
        (mkConv (mkBase 2 2 2 2 1 2 false) 1 1 0 0 true) ⟨1, 4, 0, fun _ => 0⟩
        ⟨2, 8, 0, fun _ => 5⟩ true = some out ∧
      out.rows = 2 ∧ out.cols = 8 ∧ out.data (1 + (1 * (2 * 2) + 2) * 2) = 2 := by
  obtain ⟨out, h1, h2, h3, h4, _⟩ := ComputeUp_bias unitPrimitives
    ((mkConv (mkBase 2 2 2 2 1 2 false) 1 1 0 0 true).withBias ⟨1, 2, 0, fun c => c⟩)
    (mkConv (mkBase 2 2 2 2 1 2 false) 1 1 0 0 true) ⟨1, 4, 0, fun _ => 0⟩
    ⟨2, 8, 0, fun _ => 5⟩ true 2 2 2 rfl rfl rfl rfl ⟨by decide, by decide, by decide⟩ rfl
  refine ⟨out, h1, h2, h3, (h4 1 1 2 (by decide) (by decide) (by decide)).trans ?_⟩
  norm_num [Matrix.ConvUp, unitPrimitives, ConvEdge.withBias, mkConv, mkBase]

theorem ConvEdge_ComputeOuter_eq (k : Primitives) (be : Backend) (e tied : ConvEdge)
    (input deriv_output : Matrix) :
    e.ComputeOuter k be tied input deriv_output =
      (e.outerWeights k be tied input deriv_output).bind fun dw =>
      (e.outerBias be tied input deriv_output).bind fun db =>
      if e.is_tied then
        some (({ e with toEdge := e.toEdge.IncrementNumGradsReceived } : ConvEdge),
          { tied with grad_weights := dw, grad_bias := db })
      else
        some (({ e with toEdge := e.toEdge.IncrementNumGradsReceived,
                        grad_weights := dw, grad_bias := db } : ConvEdge), tied) :=
  rfl

theorem Reshape_exact (m : Matrix) (r c : ℤ) (hr : 0 ≤ r) (hc : 0 ≤ c)
    (h : r * c = ((m.rows * m.cols : ℕ) : ℤ)) :
    m.Reshape r c = some { m with rows := r.toNat, cols := c.toNat } := by
  unfold Matrix.Reshape
  have h1 : ¬ r = -1 := by omega
  have h2 : ¬ c = -1 := by omega
  simp only [h1, h2, if_false, hr, hc, h, and_self, if_true]

theorem Reshape_column (m : Matrix) :
    m.Reshape (-1) 1 = some { m with rows := m.rows * m.cols, cols := 1 } := by
  have h := Reshape_infer_rows m (m.rows * m.cols) 1 (by decide) (by ring)
  simpa using h

theorem DIVUP_nonneg {x y : ℤ} (hx : 0 ≤ x) (hy : 0 < y) : 0 ≤ DIVUP x y :=
  Int.tdiv_nonneg (by omega) (by omega)

theorem ConvEdge_outerWeights_spec (k : Primitives) (be : Backend) (e tied : ConvEdge)
    (input deriv_output : Matrix) (hs : e.GradShaped tied deriv_output) :
    ∃ m, e.outerWeights k be tied input deriv_output = some m ∧
      m.data = (fun i => (if e.num_grads_received > 0 then 1 else 0) * (e.dw tied).data i
        + e.weightGrad k (e.dw tied).rows input deriv_output i) ∧
      m.GetNumEls = (e.dw tied).GetNumEls ∧
      (¬ e.partial_sum > 0 → m.rows = (e.dw tied).rows) := by
  obtain ⟨⟨hoc, hic, hmy, hmx⟩, hdw, _⟩ := hs
  by_cases hps : e.partial_sum > 0
  · have hfis : 0 ≤ e.num_input_channels * e.kernel_size * e.kernel_size := by
      rw [mul_assoc]; exact mul_nonneg hic (mul_self_nonneg _)
    have hP : 0 ≤ DIVUP e.num_modules_y e.partial_sum * DIVUP e.num_modules_x e.partial_sum :=
      mul_nonneg (DIVUP_nonneg hmy hps) (DIVUP_nonneg hmx hps)
    have hoc0 : 0 ≤ e.num_output_channels := by omega
    have hT : be.GetTemp e.num_output_channels
        (e.num_input_channels * e.kernel_size * e.kernel_size
          * (DIVUP e.num_modules_y e.partial_sum * DIVUP e.num_modules_x e.partial_sum))
        = some { rows := e.num_output_channels.toNat,
                 cols := (e.num_input_channels * e.kernel_size * e.kernel_size
                   * (DIVUP e.num_modules_y e.partial_sum
                     * DIVUP e.num_modules_x e.partial_sum)).toNat,
                 base := 0, data := be.temp } := by
      unfold Backend.GetTemp
      simp only [hoc0, mul_nonneg hfis hP, and_self, if_true]
    unfold ConvEdge.outerWeights
    simp only [hps, if_true]
    rw [hT, Option.some_bind]
    rw [Reshape_exact _ _ _ (mul_nonneg hoc0 hfis) hP (by
      show _ = (((e.num_output_channels.toNat * (e.num_input_channels * e.kernel_size
        * e.kernel_size * (DIVUP e.num_modules_y e.partial_sum
          * DIVUP e.num_modules_x e.partial_sum)).toNat : ℕ)) : ℤ)
      rw [Nat.cast_mul, Int.toNat_of_nonneg hoc0, Int.toNat_of_nonneg (mul_nonneg hfis hP)]
      ring), Option.some_bind]
    rw [Reshape_column, Option.some_bind]
    rw [Reshape_exact _ _ _ hoc0 hfis (by
      show _ = ((((e.dw tied).rows * (e.dw tied).cols * 1 : ℕ)) : ℤ)
      rw [Nat.mul_one, Nat.mul_comm, ← hdw]
      rfl)]
    refine ⟨_, rfl, ?_, ?_, fun h => absurd trivial h⟩
    · funext i
      simp only [Matrix.SumCols, Matrix.ConvOutp, ConvEdge.weightGrad, hps, if_true,
        Edge.GetNumGradsReceived, zero_mul, one_mul, zero_add]
      have hn : (e.num_output_channels
          * (e.num_input_channels * e.kernel_size * e.kernel_size)).toNat
          = e.num_output_channels.toNat
            * (e.kernel_size * e.kernel_size * e.num_input_channels).toNat := by
        have h : (((e.num_output_channels
            * (e.num_input_channels * e.kernel_size * e.kernel_size)).toNat : ℕ) : ℤ)
            = ((e.num_output_channels.toNat
              * (e.kernel_size * e.kernel_size * e.num_input_channels).toNat : ℕ) : ℤ) := by
          rw [Int.toNat_of_nonneg (mul_nonneg hoc0 hfis), Nat.cast_mul,
            Int.toNat_of_nonneg hoc0, Int.toNat_of_nonneg (by
              have : e.kernel_size * e.kernel_size * e.num_input_channels
                = e.num_input_channels * e.kernel_size * e.kernel_size := by ring
              rw [this]; exact hfis)]
          ring
        exact_mod_cast h
      rw [hn]
    · show (e.num_input_channels * e.kernel_size * e.kernel_size).toNat
        * e.num_output_channels.toNat = (e.dw tied).GetNumEls
      have h : (((e.num_input_channels * e.kernel_size * e.kernel_size).toNat
          * e.num_output_channels.toNat : ℕ) : ℤ) = (((e.dw tied).GetNumEls : ℕ) : ℤ) := by
        rw [hdw, Nat.cast_mul, Int.toNat_of_nonneg hoc0, Int.toNat_of_nonneg hfis]
        ring
      exact_mod_cast h
  · have h : e.outerWeights k be tied input deriv_output
        = some (Matrix.ConvOutp k input deriv_output (e.dw tied) e.image_size_y e.num_modules_y
            e.num_modules_x e.kernel_size e.padding e.stride e.num_input_channels
            e.num_modules_x (if e.GetNumGradsReceived > 0 then 1 else 0)
            (e.scale_gradients / ((input.rows : Int) : ℚ))) := by
      unfold ConvEdge.outerWeights
      simp only [hps, if_false]
    refine ⟨_, h, ?_, rfl, fun _ => rfl⟩
    funext i
    simp only [Matrix.ConvOutp, ConvEdge.weightGrad, hps, if_false, Edge.GetNumGradsReceived]

theorem ConvEdge_outerBias_some (be : Backend) (e tied : ConvEdge)
    (input deriv_output : Matrix) (hs : e.GradShaped tied deriv_output) :
    ∃ db, e.outerBias be tied input deriv_output = some db := by
  obtain ⟨⟨hoc, _, hmy, hmx⟩, _, hd⟩ := hs
  unfold ConvEdge.outerBias
  cases e.has_no_bias
  · cases e.shared_bias
    · exact ⟨_, rfl⟩
    · have hT : be.GetTemp 1 (deriv_output.cols : ℤ)
          = some { rows := 1, cols := deriv_output.cols, base := 0, data := be.temp } := by
        unfold Backend.GetTemp
        simp
      have hR := Reshape_infer_rows
        (deriv_output.SumRows { rows := 1, cols := deriv_output.cols, base := 0, data := be.temp }
          0 1)
        (e.num_modules_y * e.num_modules_x).toNat e.num_output_channels.toNat (by omega) (by
          show 1 * deriv_output.cols = _
          have h : ((1 * deriv_output.cols : ℕ) : ℤ)
              = (((e.num_modules_y * e.num_modules_x).toNat
                * e.num_output_channels.toNat : ℕ) : ℤ) := by
            rw [Nat.one_mul, hd, Nat.cast_mul, Int.toNat_of_nonneg (mul_nonneg hmy hmx),
              Int.toNat_of_nonneg (by omega)]
            ring
          exact_mod_cast h)
      rw [Int.toNat_of_nonneg (by omega)] at hR
      simp only [Bool.not_false, if_true, hT, Option.some_bind, hR]
      exact ⟨_, rfl⟩
  · exact ⟨_, rfl⟩

theorem ConvEdge_ComputeOuter_spec (k : Primitives) (be : Backend) (e tied : ConvEdge)
    (input deriv_output : Matrix) (hs : e.GradShaped tied deriv_output) :
    ∃ s, e.ComputeOuter k be tied input deriv_output = some s ∧
      (s.1.dw s.2).data = (fun i =>
        (if e.num_grads_received > 0 then 1 else 0) * (e.dw tied).data i
          + e.weightGrad k (e.dw tied).rows input deriv_output i) ∧
      s.1.num_grads_received = e.num_grads_received + 1 ∧
      s.1.GradShaped s.2 deriv_output ∧
      s.1.weightGrad k (s.1.dw s.2).rows input deriv_output
        = e.weightGrad k (e.dw tied).rows input deriv_output := by
  obtain ⟨m, hm, hdata, hels, hrows⟩ := ConvEdge_outerWeights_spec k be e tied input deriv_output hs
  obtain ⟨db, hdb⟩ := ConvEdge_outerBias_some be e tied input deriv_output hs
  rw [ConvEdge_ComputeOuter_eq, hm, Option.some_bind, hdb, Option.some_bind]
  obtain ⟨hsz, hdw, hd⟩ := hs
  cases hti : e.is_tied
  · have hdw0 : e.dw tied = e.grad_weights := by
      simp only [ConvEdge.dw, hti, Bool.false_eq_true, if_false]
    rw [hdw0] at hdata hdw hels hrows
    rw [hdw0]
    refine ⟨_, rfl, ?_, rfl, ⟨hsz, ?_, hd⟩, ?_⟩
    · show (if e.is_tied = true then tied.grad_weights else m).data = _
      simp only [hti, Bool.false_eq_true, if_false]
      exact hdata
    · show (((if e.is_tied = true then tied.grad_weights else m).GetNumEls : ℕ) : ℤ) = _
      simp only [hti, Bool.false_eq_true, if_false]
      rw [hels]; exact hdw
    · show ConvEdge.weightGrad k _ (if e.is_tied = true then tied.grad_weights else m).rows _ _ = _
      simp only [hti, Bool.false_eq_true, if_false]
      funext i
      unfold ConvEdge.weightGrad
      by_cases hps : e.partial_sum > 0
      · simp only [hps, if_true]; rfl
      · simp only [hps, if_false]
        rw [hrows hps]; rfl
  · have hdw0 : e.dw tied = tied.grad_weights := by
      simp only [ConvEdge.dw, hti, if_true]
    rw [hdw0] at hdata hdw hels hrows
    rw [hdw0]
    refine ⟨_, rfl, ?_, rfl, ⟨hsz, ?_, hd⟩, ?_⟩
    · show (if e.is_tied = true then m else e.grad_weights).data = _
      simp only [hti, if_true]
      exact hdata
    · show (((if e.is_tied = true then m else e.grad_weights).GetNumEls : ℕ) : ℤ) = _
      simp only [hti, if_true]
      rw [hels]; exact hdw
    · show ConvEdge.weightGrad k _ (if e.is_tied = true then m else e.grad_weights).rows _ _ = _
      simp only [hti, if_true]
      funext i
      unfold ConvEdge.weightGrad
      by_cases hps : e.partial_sum > 0
      · simp only [hps, if_true]; rfl
      · simp only [hps, if_false]
        rw [hrows hps]; rfl

theorem LocalEdge_ComputeOuter_spec (k : Primitives) (e tied : LocalEdge)
    (input deriv_output : Matrix) :
    ((e.ComputeOuter k tied input deriv_output).1.dw
        (e.ComputeOuter k tied input deriv_output).2).data = (fun i =>
        (if e.num_grads_received > 0 then 1 else 0) * (e.dw tied).data i
          + e.weightGrad k input deriv_output i) ∧
      (e.ComputeOuter k tied input deriv_output).1.num_grads_received
        = e.num_grads_received + 1 ∧
      (e.ComputeOuter k tied input deriv_output).1.weightGrad k input deriv_output
        = e.weightGrad k input deriv_output := by
  unfold LocalEdge.ComputeOuter
  cases hti : e.is_tied
  · simp only [Bool.false_eq_true, if_false]
    refine ⟨?_, rfl, rfl⟩
    show (if e.is_tied = true then tied.grad_weights else _).data = _
    simp only [hti, Bool.false_eq_true, if_false, LocalEdge.dw]
    rfl
  · simp only [if_true]
    refine ⟨?_, rfl, rfl⟩
    show (if e.is_tied = true then _ else e.grad_weights).data = _
    simp only [hti, if_true, LocalEdge.dw]
    rfl

theorem ConvEdge_GradShaped_withGradData (e tied : ConvEdge) (deriv_output : Matrix)
    (prev prev' : Nat → ℚ) (n : Int) (hs : e.GradShaped tied deriv_output) :
    ((e.withGradData prev).withCounter n).GradShaped (tied.withGradData prev') deriv_output ∧
    (((e.withGradData prev).withCounter n).dw (tied.withGradData prev')).rows
      = (e.dw tied).rows := by
  obtain ⟨hsz, hdw, hd⟩ := hs
  have h : ∀ b : Bool, e.is_tied = b →
      (((e.withGradData prev).withCounter n).dw (tied.withGradData prev')).rows
        = (e.dw tied).rows ∧
      (((e.withGradData prev).withCounter n).dw (tied.withGradData prev')).GetNumEls
        = (e.dw tied).GetNumEls := by
    intro b hb
    have h1 : ((e.withGradData prev).withCounter n).is_tied = b := hb
    cases b <;> simp only [ConvEdge.dw, h1, hb, Bool.false_eq_true, if_false, if_true] <;>
      exact ⟨rfl, rfl⟩
  obtain ⟨h1, h2⟩ := h _ rfl
  refine ⟨⟨hsz, ?_, hd⟩, h1⟩
  rw [h2]
  exact hdw

/-- C7: starting from a counter at 0, one call of `ComputeOuter` leaves in the
weight-gradient tensor a value `g` that is the same for every previous content
`prev`, `prev'` of the gradient tensors (and every content of the scratch
buffer), and sets the counter to 1; a second call with the same inputs leaves
`2 * g` and the counter at 2; after resetting the counter to 0 a call leaves
`g` again. This holds for a convolutional edge on the partial-sum path
(`partial_sum > 0`) and on the direct path, and for a local edge. -/
theorem ComputeOuter_counter (k : Primitives) (be1 be2 be3 : Backend) (e tied : ConvEdge)
    (l ltied : LocalEdge) (input deriv_output : Matrix)
    (hs : e.GradShaped tied deriv_output) :
    (∃ g : Nat → ℚ, ∀ prev prev' : Nat → ℚ, ∃ s1 s2 s3,
      ((e.withGradData prev).withCounter 0).ComputeOuter k be1 (tied.withGradData prev')
          input deriv_output = some s1 ∧
        (s1.1.dw s1.2).data = g ∧ s1.1.num_grads_received = 1 ∧
      s1.1.ComputeOuter k be2 s1.2 input deriv_output = some s2 ∧
        (s2.1.dw s2.2).data = (fun i => 2 * g i) ∧ s2.1.num_grads_received = 2 ∧
      (s2.1.withCounter 0).ComputeOuter k be3 s2.2 input deriv_output = some s3 ∧
        (s3.1.dw s3.2).data = g ∧ s3.1.num_grads_received = 1) ∧
    (∃ g : Nat → ℚ, ∀ prev prev' : Nat → ℚ, ∃ s1 s2 s3,
      ((l.withGradData prev).withCounter 0).ComputeOuter k (ltied.withGradData prev')
          input deriv_output = s1 ∧
        (s1.1.dw s1.2).data = g ∧ s1.1.num_grads_received = 1 ∧
      s1.1.ComputeOuter k s1.2 input deriv_output = s2 ∧
        (s2.1.dw s2.2).data = (fun i => 2 * g i) ∧ s2.1.num_grads_received = 2 ∧
      (s2.1.withCounter 0).ComputeOuter k s2.2 input deriv_output = s3 ∧
        (s3.1.dw s3.2).data = g ∧ s3.1.num_grads_received = 1) := by
  constructor
  · refine ⟨e.weightGrad k (e.dw tied).rows input deriv_output, fun prev prev' => ?_⟩
    obtain ⟨hs0, hr0⟩ := ConvEdge_GradShaped_withGradData e tied deriv_output prev prev' 0 hs
    obtain ⟨s1, h1, d1, c1, hs1, g1⟩ := ConvEdge_ComputeOuter_spec k be1 _ _ input deriv_output hs0
    obtain ⟨s2, h2, d2, c2, hs2, g2⟩ := ConvEdge_ComputeOuter_spec k be2 _ _ input deriv_output hs1
    have hs2' : (s2.1.withCounter 0).GradShaped s2.2 deriv_output := hs2
    obtain ⟨s3, h3, d3, c3, _, _⟩ := ConvEdge_ComputeOuter_spec k be3 _ _ input deriv_output hs2'
    have g0 : ((e.withGradData prev).withCounter 0).weightGrad k
        (((e.withGradData prev).withCounter 0).dw (tied.withGradData prev')).rows
          input deriv_output = e.weightGrad k (e.dw tied).rows input deriv_output := by
      rw [hr0]; rfl
    have c0 : ((e.withGradData prev).withCounter 0).num_grads_received = 0 := rfl
    have d1' : (s1.1.dw s1.2).data = e.weightGrad k (e.dw tied).rows input deriv_output := by
      rw [d1, g0, c0]
      funext i
      simp
    have c1' : s1.1.num_grads_received = 1 := by rw [c1, c0]; rfl
    have g1' : s1.1.weightGrad k (s1.1.dw s1.2).rows input deriv_output
        = e.weightGrad k (e.dw tied).rows input deriv_output := g0 ▸ g1
    have d2' : (s2.1.dw s2.2).data
        = fun i => 2 * e.weightGrad k (e.dw tied).rows input deriv_output i := by
      rw [d2, g1', d1', c1']
      funext i
      simp
      ring
    have c2' : s2.1.num_grads_received = 2 := by rw [c2, c1']; rfl
    have d3' : (s3.1.dw s3.2).data = e.weightGrad k (e.dw tied).rows input deriv_output := by
      rw [d3]
      have hw : (s2.1.withCounter 0).weightGrad k ((s2.1.withCounter 0).dw s2.2).rows
          input deriv_output = s2.1.weightGrad k (s2.1.dw s2.2).rows input deriv_output := rfl
      have hc : (s2.1.withCounter 0).num_grads_received = 0 := rfl
      rw [hw, g2, g1', hc]
      funext i
      simp
    have c3' : s3.1.num_grads_received = 1 := by
      rw [c3]; rfl
    exact ⟨s1, s2, s3, h1, d1', c1', h2, d2', c2', h3, d3', c3'⟩
  · refine ⟨l.weightGrad k input deriv_output, fun prev prev' => ?_⟩
    obtain ⟨d1, c1, g1⟩ := LocalEdge_ComputeOuter_spec k ((l.withGradData prev).withCounter 0)
      (ltied.withGradData prev') input deriv_output
    generalize e1 : ((l.withGradData prev).withCounter 0).ComputeOuter k
      (ltied.withGradData prev') input deriv_output = s1 at d1 c1 g1
    obtain ⟨d2, c2, g2⟩ := LocalEdge_ComputeOuter_spec k s1.1 s1.2 input deriv_output
    generalize e2 : s1.1.ComputeOuter k s1.2 input deriv_output = s2 at d2 c2 g2
    obtain ⟨d3, c3, _⟩ := LocalEdge_ComputeOuter_spec k (s2.1.withCounter 0) s2.2
      input deriv_output
    generalize e3 : (s2.1.withCounter 0).ComputeOuter k s2.2 input deriv_output = s3 at d3 c3
    have g0 : ((l.withGradData prev).withCounter 0).weightGrad k input deriv_output
        = l.weightGrad k input deriv_output := rfl
    have c0 : ((l.withGradData prev).withCounter 0).num_grads_received = 0 := rfl
    have d1' : (s1.1.dw s1.2).data = l.weightGrad k input deriv_output := by
      rw [d1, g0, c0]
      funext i
      simp
    have c1' : s1.1.num_grads_received = 1 := by rw [c1, c0]; rfl
    have g1' : s1.1.weightGrad k input deriv_output = l.weightGrad k input deriv_output :=
      g1.trans g0
    have d2' : (s2.1.dw s2.2).data = fun i => 2 * l.weightGrad k input deriv_output i := by
      rw [d2, g1', d1', c1']
      funext i
      simp
      ring
    have c2' : s2.1.num_grads_received = 2 := by rw [c2, c1']; rfl
    have d3' : (s3.1.dw s3.2).data = l.weightGrad k input deriv_output := by
      rw [d3]
      have hw : (s2.1.withCounter 0).weightGrad k input deriv_output
          = s2.1.weightGrad k input deriv_output := rfl
      have hc : (s2.1.withCounter 0).num_grads_received = 0 := rfl
      rw [hw, g2, g1', hc]
      funext i
      simp
    have c3' : s3.1.num_grads_received = 1 := by
      rw [c3]; rfl
    exact ⟨s1, s2, s3, rfl, d1', c1', e2, d2', c2', e3, d3', c3'⟩

/-- C7 on the 2 × 1 grid, for the partial-sum path (`partial_sum = 1`) of a
convolutional edge and for a local edge. -/
theorem ComputeOuter_counter_witness :
    ∃ g : Nat → ℚ, ∃ s1 s2,
      (((rectEdge 1 0).withGradData fun _ => 7).withCounter 0).ComputeOuter unitPrimitives
          ⟨0, 0, fun _ => 3⟩ ((rectEdge 1 0).withGradData fun _ => 9)
          ⟨1, 2, 0, fun _ => 1⟩ ⟨1, 2, 0, fun _ => 1⟩ = some s1 ∧
        (s1.1.dw s1.2).data = g ∧ s1.1.num_grads_received = 1 ∧
      s1.1.ComputeOuter unitPrimitives ⟨0, 0, fun _ => 4⟩ s1.2
          ⟨1, 2, 0, fun _ => 1⟩ ⟨1, 2, 0, fun _ => 1⟩ = some s2 ∧
        (s2.1.dw s2.2).data = (fun i => 2 * g i) ∧ s2.1.num_grads_received = 2 := by
  obtain ⟨⟨g, h⟩, _⟩ := ComputeOuter_counter unitPrimitives ⟨0, 0, fun _ => 3⟩
    ⟨0, 0, fun _ => 4⟩ ⟨0, 0, fun _ => 5⟩ (rectEdge 1 0) (rectEdge 1 0)
    (mkLocal (mkBase 2 1 2 1 1 1 true) 1 1 0) (mkLocal (mkBase 2 1 2 1 1 1 true) 1 1 0)
    ⟨1, 2, 0, fun _ => 1⟩ ⟨1, 2, 0, fun _ => 1⟩
    (by unfold ConvEdge.GradShaped EdgeWithWeight.Sized; decide)
  obtain ⟨s1, s2, _, h1, h2, h3, h4, h5, h6, _⟩ := h (fun _ => 7) (fun _ => 9)
  exact ⟨g, s1, s2, h1, h2, h3, h4, h5, h6⟩

/-- C2 fails on a grid with more rows than columns. On the 2 × 1 grid, with a
backend in which every module contributes 1 to the gradient, the partial-sum
path with `partial_sum = 1` writes the sum over both modules, 2, whereas the
direct path hands the block size `num_modules_x = 1` to the backend, which
makes two blocks, and the gradient tensor receives the first one only, 1. -/
theorem ComputeOuter_rect_grid :
    (rectEdge 1 0).num_modules_y = 2 ∧ (rectEdge 1 0).num_modules_x = 1 ∧
    ((rectEdge 1 0).ComputeOuter unitPrimitives ⟨0, 0, fun _ => 0⟩ (rectEdge 1 0)
        ⟨1, 2, 0, fun _ => 1⟩ ⟨1, 2, 0, fun _ => 1⟩).map (fun s => s.1.grad_weights.data 0)
      = some 2 ∧
    ((rectEdge 0 0).ComputeOuter unitPrimitives ⟨0, 0, fun _ => 0⟩ (rectEdge 0 0)
        ⟨1, 2, 0, fun _ => 1⟩ ⟨1, 2, 0, fun _ => 1⟩).map (fun s => s.1.grad_weights.data 0)
      = some 1 := by
  refine ⟨by decide, by decide, ?_, ?_⟩
  · have h1 : DIVUP 2 1 = 2 := by decide
    have h2 : DIVUP 1 1 = 1 := by decide
    norm_num [ConvEdge.ComputeOuter, rectEdge, mkConv, mkBase, ConvEdge.SetImageSize,
      Edge.SetImageSize, ConvEdge.dw, Backend.GetTemp, h1, h2, Matrix.ConvOutp,
      Matrix.Reshape, Matrix.SumCols, blockGrad, unitPrimitives, Finset.sum_range_succ,
      Edge.GetNumGradsReceived, Edge.IncrementNumGradsReceived]
    rw [show Int.toNat 2 = 2 from rfl]
    simp [Finset.sum_range_succ, Finset.filter_singleton]
    norm_num
  · norm_num [ConvEdge.ComputeOuter, rectEdge, mkConv, mkBase, ConvEdge.SetImageSize,
      Edge.SetImageSize, ConvEdge.dw, Matrix.ConvOutp, blockGrad, unitPrimitives,
      Finset.sum_range_succ, Edge.GetNumGradsReceived, Edge.IncrementNumGradsReceived]
    decide

theorem sum_range_mul_add (h : ℕ → ℚ) (nb b : ℕ) :
    (Finset.sum (Finset.range nb) fun q => Finset.sum (Finset.range b) fun r => h (q * b + r))
      = Finset.sum (Finset.range (nb * b)) h := by
  induction nb with
  | zero => simp
  | succ n ih =>
    rw [Finset.sum_range_succ, ih, Nat.succ_mul, Finset.sum_range_add]

theorem sum_range_ite_lt (f : ℕ → ℚ) (m n : ℕ) (h : m ≤ n) :
    (Finset.sum (Finset.range n) fun y => if y < m then f y else 0)
      = Finset.sum (Finset.range m) f := by
  obtain ⟨d, rfl⟩ := Nat.exists_eq_add_of_le h
  rw [Finset.sum_range_add]
  have h1 : (Finset.sum (Finset.range m) fun y => if y < m then f y else 0)
      = Finset.sum (Finset.range m) f :=
    Finset.sum_congr rfl fun y hy => by rw [if_pos (Finset.mem_range.mp hy)]
  have h2 : (Finset.sum (Finset.range d) fun j => if m + j < m then f (m + j) else 0) = 0 :=
    Finset.sum_eq_zero fun j _ => by rw [if_neg (by omega)]
  rw [h1, h2, add_zero]

theorem le_divup_mul (m b : ℕ) (hb : 0 < b) : m ≤ (m + b - 1) / b * b := by
  have h1 := Nat.div_add_mod (m + b - 1) b
  have h2 := Nat.mod_lt (m + b - 1) hb
  rw [Nat.mul_comm] at h1
  omega

theorem sum_blocks_1d (f : ℕ → ℚ) (m b nb : ℕ) (h : m ≤ nb * b) :
    (Finset.sum (Finset.range nb) fun q => Finset.sum (Finset.range b) fun r =>
        if q * b + r < m then f (q * b + r) else 0)
      = Finset.sum (Finset.range m) f := by
  rw [sum_range_mul_add (fun y => if y < m then f y else 0) nb b]
  exact sum_range_ite_lt f m _ h

theorem sum_blockGrad (g : ℕ → ℕ → ℕ → ℚ) (my mx b j : ℕ) (hb : 0 < b) :
    (Finset.sum (Finset.range ((my + b - 1) / b * ((mx + b - 1) / b))) fun p =>
        blockGrad g my mx b p j) = gridGrad g my mx j := by
  rw [← sum_range_mul_add (fun p => blockGrad g my mx b p j)]
  have hblock : ∀ q, ∀ r ∈ Finset.range ((mx + b - 1) / b),
      blockGrad g my mx b (q * ((mx + b - 1) / b) + r) j
        = Finset.sum (Finset.range b) fun dy => Finset.sum (Finset.range b) fun dx =>
            if q * b + dy < my ∧ r * b + dx < mx then g (q * b + dy) (r * b + dx) j else 0 := by
    intro q r hr
    have hr' := Finset.mem_range.mp hr
    have hpos : 0 < (mx + b - 1) / b := by omega
    have h1 : (q * ((mx + b - 1) / b) + r) / ((mx + b - 1) / b) = q := by
      rw [Nat.add_comm, Nat.add_mul_div_right _ _ hpos, Nat.div_eq_of_lt hr', Nat.zero_add]
    have h2 : (q * ((mx + b - 1) / b) + r) % ((mx + b - 1) / b) = r := by
      rw [Nat.add_comm, Nat.add_mul_mod_self_right, Nat.mod_eq_of_lt hr']
    unfold blockGrad
    simp only [h1, h2]
  have hrow : ∀ q, (Finset.sum (Finset.range ((mx + b - 1) / b)) fun r =>
      blockGrad g my mx b (q * ((mx + b - 1) / b) + r) j)
        = Finset.sum (Finset.range b) fun dy =>
            if q * b + dy < my then
              Finset.sum (Finset.range mx) fun x => g (q * b + dy) x j
            else 0 := by
    intro q
    rw [Finset.sum_congr rfl (hblock q), Finset.sum_comm]
    refine Finset.sum_congr rfl fun dy _ => ?_
    by_cases hA : q * b + dy < my
    · simp only [hA, true_and, if_true]
      exact sum_blocks_1d (fun x => g (q * b + dy) x j) mx b _ (le_divup_mul mx b hb)
    · simp only [hA, false_and, if_false, Finset.sum_const_zero]
  rw [Finset.sum_congr rfl fun q _ => hrow q]
  exact sum_blocks_1d (fun y => Finset.sum (Finset.range mx) fun x => g y x j) my b _
    (le_divup_mul my b hb)

theorem blockGrad_single (g : ℕ → ℕ → ℕ → ℚ) (my mx j : ℕ) (h : my ≤ mx) :
    blockGrad g my mx mx 0 j = gridGrad g my mx j := by
  unfold blockGrad gridGrad
  simp only [Nat.zero_div, Nat.zero_mod, Nat.zero_mul, Nat.zero_add]
  have h1 : ∀ dy ∈ Finset.range mx,
      (Finset.sum (Finset.range mx) fun dx => if dy < my ∧ dx < mx then g dy dx j else 0)
        = if dy < my then Finset.sum (Finset.range mx) fun x => g dy x j else 0 := by
    intro dy _
    by_cases hA : dy < my
    · simp only [hA, true_and, if_true]
      exact Finset.sum_congr rfl fun dx hdx => by rw [if_pos (Finset.mem_range.mp hdx)]
    · simp only [hA, false_and, if_false, Finset.sum_const_zero]
  rw [Finset.sum_congr rfl h1]
  exact sum_range_ite_lt (fun y => Finset.sum (Finset.range mx) fun x => g y x j) my mx h

theorem DIVUP_toNat (x y : ℤ) (hx : 0 ≤ x) (hy : 0 < y) :
    (DIVUP x y).toNat = (x.toNat + y.toNat - 1) / y.toNat := by
  lift x to ℕ using hx
  lift y to ℕ using hy.le
  have hy' : 0 < y := by exact_mod_cast hy
  unfold DIVUP
  have h1 : ((x : ℤ) + (y : ℤ) - 1) = ((x + y - 1 : ℕ) : ℤ) := by omega
  rw [h1, Int.tdiv_eq_ediv (Int.natCast_nonneg _) (Int.natCast_nonneg _)]
  simp only [Int.toNat_ofNat]
  norm_cast

theorem toNat_mul_of_nonneg {a b : ℤ} (ha : 0 ≤ a) (hb : 0 ≤ b) :
    (a * b).toNat = a.toNat * b.toNat := by
  lift a to ℕ using ha
  lift b to ℕ using hb
  norm_cast

theorem ConvEdge_weightGrad_partial (k : Primitives) (e : ConvEdge) (rows : ℕ)
    (input deriv_output : Matrix) (i : ℕ) (hs : e.toEdgeWithWeight.Sized)
    (hps : 0 < e.partial_sum)
    (hi : i < e.num_output_channels.toNat
      * (e.kernel_size * e.kernel_size * e.num_input_channels).toNat) :
    e.weightGrad k rows input deriv_output i
      = e.scale_gradients / ((input.rows : Int) : ℚ)
        * gridGrad (k.convOutp input deriv_output e.image_size_y e.kernel_size e.padding
            e.stride e.num_input_channels) e.num_modules_y.toNat e.num_modules_x.toNat i := by
  obtain ⟨_, _, hmy, hmx⟩ := hs
  unfold ConvEdge.weightGrad
  simp only [gt_iff_lt, hps, if_true]
  congr 1
  rw [toNat_mul_of_nonneg (DIVUP_nonneg hmy hps) (DIVUP_nonneg hmx hps),
    DIVUP_toNat _ _ hmy hps, DIVUP_toNat _ _ hmx hps,
    ← sum_blockGrad _ _ _ _ i (show 0 < e.partial_sum.toNat by omega)]
  refine Finset.sum_congr rfl fun c _ => ?_
  have hpos : 0 < e.num_output_channels.toNat
      * (e.kernel_size * e.kernel_size * e.num_input_channels).toNat := by omega
  rw [Nat.add_mul_div_right _ _ hpos, Nat.div_eq_of_lt hi, Nat.zero_add,
    Nat.add_mul_mod_self_right, Nat.mod_eq_of_lt hi]

theorem ConvEdge_weightGrad_direct (k : Primitives) (e : ConvEdge) (rows : ℕ)
    (input deriv_output : Matrix) (i : ℕ) (hps : ¬ 0 < e.partial_sum)
    (hrows : rows = e.num_output_channels.toNat)
    (hgrid : e.num_modules_y ≤ e.num_modules_x)
    (hi : i < e.num_output_channels.toNat
      * (e.kernel_size * e.kernel_size * e.num_input_channels).toNat) :
    e.weightGrad k rows input deriv_output i
      = e.scale_gradients / ((input.rows : Int) : ℚ)
        * gridGrad (k.convOutp input deriv_output e.image_size_y e.kernel_size e.padding
            e.stride e.num_input_channels) e.num_modules_y.toNat e.num_modules_x.toNat i := by
  unfold ConvEdge.weightGrad
  simp only [gt_iff_lt, hps, if_false]
  rw [hrows, Nat.div_eq_of_lt hi, Nat.mod_eq_of_lt hi,
    blockGrad_single _ _ _ _ (Int.toNat_le_toNat hgrid)]

/-- The partial-sum equivalence on the grids that the direct path handles: for
a grid with no more rows than columns, `ComputeOuter` with `partial_sum = ps > 0`
and with `partial_sum = 0` both succeed and leave the same weight gradient, the
scaled sum of the contributions of all the modules (accumulated onto the
previous content when the counter is positive). -/
theorem ComputeOuter_partial_eq_direct (k : Primitives) (be be' : Backend) (e tied : ConvEdge)
    (input deriv_output : Matrix) (ps : ℤ) (hs : e.GradShaped tied deriv_output)
    (hrows : (e.dw tied).rows = e.num_output_channels.toNat) (hps : 0 < ps)
    (hgrid : e.num_modules_y ≤ e.num_modules_x) :
    ∃ s s', (e.withPartialSum ps).ComputeOuter k be tied input deriv_output = some s ∧
      (e.withPartialSum 0).ComputeOuter k be' tied input deriv_output = some s' ∧
      ∀ i, i < (e.dw tied).GetNumEls →
        (s.1.dw s.2).data i = (s'.1.dw s'.2).data i ∧
        (s.1.dw s.2).data i =
          (if e.num_grads_received > 0 then 1 else 0) * (e.dw tied).data i
          + e.scale_gradients / ((input.rows : Int) : ℚ)
            * gridGrad (k.convOutp input deriv_output e.image_size_y e.kernel_size e.padding
                e.stride e.num_input_channels) e.num_modules_y.toNat e.num_modules_x.toNat
                i := by
  have hs1 : (e.withPartialSum ps).GradShaped tied deriv_output := hs
  have hs0 : (e.withPartialSum 0).GradShaped tied deriv_output := hs
  obtain ⟨s, h, d, -⟩ := ConvEdge_ComputeOuter_spec k be _ _ input deriv_output hs1
  obtain ⟨s', h', d', -⟩ := ConvEdge_ComputeOuter_spec k be' _ _ input deriv_output hs0
  refine ⟨s, s', h, h', fun i hi => ?_⟩
  obtain ⟨hsz, hdw, _⟩ := hs
  have hi' : i < e.num_output_channels.toNat
      * (e.kernel_size * e.kernel_size * e.num_input_channels).toNat := by
    have h1 : 0 ≤ e.kernel_size * e.kernel_size * e.num_input_channels :=
      mul_nonneg (mul_self_nonneg _) hsz.2.1
    rw [← toNat_mul_of_nonneg (by have := hsz.1; omega) h1]
    have h2 : ((i : ℕ) : ℤ) < e.num_output_channels
        * (e.kernel_size * e.kernel_size * e.num_input_channels) := by
      have : ((i : ℕ) : ℤ) < (((e.dw tied).GetNumEls : ℕ) : ℤ) := by exact_mod_cast hi
      rw [hdw] at this
      calc ((i : ℕ) : ℤ) < _ := this
        _ = _ := by ring
    omega
  have e1 := ConvEdge_weightGrad_partial k (e.withPartialSum ps) (e.dw tied).rows input
    deriv_output i hsz hps hi'
  have e0 := ConvEdge_weightGrad_direct k (e.withPartialSum 0) (e.dw tied).rows input
    deriv_output i (by show ¬ (0 : ℤ) < 0; decide) hrows hgrid hi'
  have e1' : (e.withPartialSum ps).weightGrad k ((e.withPartialSum ps).dw tied).rows input
      deriv_output i = _ := e1
  have e0' : (e.withPartialSum 0).weightGrad k ((e.withPartialSum 0).dw tied).rows input
      deriv_output i = _ := e0
  have d1 := congrFun d i
  have d0 := congrFun d' i
  simp only [] at d1 d0
  rw [d1, d0, e1', e0']
  exact ⟨rfl, rfl⟩

theorem tdiv_bounds {a S : Int} (ha : 0 ≤ a) (hs : 1 ≤ S) :
    0 ≤ Int.tdiv a S ∧ Int.tdiv a S * S + a % S = a ∧ 0 ≤ a % S ∧ a % S < S := by
  rw [Int.tdiv_eq_ediv ha (by omega)]
  refine ⟨Int.ediv_nonneg ha (by omega), ?_, Int.emod_nonneg _ (by omega),
    Int.emod_lt_of_pos _ (by omega)⟩
  rw [Int.mul_comm]
  exact Int.ediv_add_emod a S

theorem TrailingStrip_tdiv {N K S P : Int} (hs : 1 ≤ S) (hk : K ≤ N + 2 * P) :
    TrailingStrip (Int.tdiv (N + 2 * P - K) S + 1) N K S P := by
  obtain ⟨h0, h1, h2, h3⟩ := tdiv_bounds (show 0 ≤ N + 2 * P - K by omega) hs
  have e1 : (Int.tdiv (N + 2 * P - K) S + 1 - 1) * S = Int.tdiv (N + 2 * P - K) S * S := by
    ring
  have e2 : (Int.tdiv (N + 2 * P - K) S + 1) * S = Int.tdiv (N + 2 * P - K) S * S + S := by
    ring
  unfold TrailingStrip
  rw [e1, e2]
  refine ⟨by omega, by omega, by omega, by omega, by omega⟩

/-- C11: for a valid geometry (stride at least 1, padding non-negative, kernel
between 1 and the padded image size), `SetImageSize(h, w)` of a convolutional
and of a local edge completes, records the image size, and sets in each
direction a grid size `m` with `m >= 1`, `(m - 1)*S + K <= N + 2*P`,
`m*S + K > N + 2*P` and `0 <= N + 2*P - K - (m - 1)*S < S`. -/
theorem SetImageSize_trailing_strip (e : ConvEdge) (l : LocalEdge) (h w : Int)
    (he : ValidGeometry e.kernel_size e.stride e.padding h w)
    (hl : ValidGeometry l.kernel_size l.stride l.padding h w) :
    (TrailingStrip (e.SetImageSize h w).num_modules_y h e.kernel_size e.stride e.padding ∧
      TrailingStrip (e.SetImageSize h w).num_modules_x w e.kernel_size e.stride e.padding ∧
      (e.SetImageSize h w).image_size_y = h ∧ (e.SetImageSize h w).image_size_x = w) ∧
    (TrailingStrip (l.SetImageSize h w).num_modules_y h l.kernel_size l.stride l.padding ∧
      TrailingStrip (l.SetImageSize h w).num_modules_x w l.kernel_size l.stride l.padding ∧
      (l.SetImageSize h w).image_size_y = h ∧ (l.SetImageSize h w).image_size_x = w) := by
  obtain ⟨hs, _, _, hkh, hkw⟩ := he
  obtain ⟨hs', _, _, hkh', hkw'⟩ := hl
  exact ⟨⟨TrailingStrip_tdiv hs hkh, TrailingStrip_tdiv hs hkw, rfl, rfl⟩,
    ⟨TrailingStrip_tdiv hs' hkh', TrailingStrip_tdiv hs' hkw', rfl, rfl⟩⟩

/-- C11 on an image of 8 pixels with kernel 3, stride 2 and no padding: 3
modules, the last window ends at pixel 7 and one pixel is left unused. -/
theorem SetImageSize_trailing_strip_witness :
    ((mkConv (mkBase 0 0 0 0 3 16 false) 3 2 0 0 true).SetImageSize 8 8).num_modules_y = 3 ∧
    TrailingStrip 3 8 3 2 0 ∧
    TrailingStrip ((mkLocal (mkBase 0 0 0 0 3 16 false) 3 2 0).SetImageSize 8 8).num_modules_x
      8 3 2 0 :=
  have h := SetImageSize_trailing_strip (mkConv (mkBase 0 0 0 0 3 16 false) 3 2 0 0 true)
    (mkLocal (mkBase 0 0 0 0 3 16 false) 3 2 0) 8 8
    (by unfold ValidGeometry; decide) (by unfold ValidGeometry; decide)
  ⟨by decide, h.1.1, h.2.2.1⟩

theorem fovRightPad_ConvEdge (e : ConvEdge) (t : Int × Int × Int × Int) :
    fovRightPad e.FOV e.stride t
      = Int.tdiv (e.image_size_x + 2 * e.padding - e.kernel_size) e.stride * e.stride
        - (e.image_size_x + e.padding - e.kernel_size) := by
  unfold fovRightPad ConvEdge.FOV
  ring

theorem fovRightPad_LocalEdge (e : LocalEdge) (t : Int × Int × Int × Int) :
    fovRightPad e.FOV e.stride t
      = Int.tdiv (e.image_size_x + 2 * e.padding - e.kernel_size) e.stride * e.stride
        - (e.image_size_x + e.padding - e.kernel_size) := by
  unfold fovRightPad LocalEdge.FOV
  ring

theorem rightPad_formula {W K S P : Int} (hs : 1 ≤ S) (hk : K ≤ W + 2 * P) :
    Int.tdiv (W + 2 * P - K) S * S - (W + P - K) = P - (W + 2 * P - K) % S ∧
    (Int.tdiv (W + 2 * P - K) S * S - (W + P - K) = P ↔ (W + 2 * P - K) % S = 0) ∧
    P - S < Int.tdiv (W + 2 * P - K) S * S - (W + P - K) ∧
    Int.tdiv (W + 2 * P - K) S * S - (W + P - K) ≤ P := by
  obtain ⟨_, h1, h2, h3⟩ := tdiv_bounds (show 0 ≤ W + 2 * P - K by omega) hs
  refine ⟨by omega, ⟨fun h => by omega, fun h => by omega⟩, by omega, by omega⟩

/-- C13: for a stride of at least 1 and a kernel no larger than the padded
image width (whatever the padding, non-negative or not), the effective right
padding that `FOV` of a convolutional and of a local edge adds to `pad2 * S` is
`P - ((W + 2*P - K) mod S)`; it is `P` exactly when `S` divides `W + 2*P - K`,
and it lies in the range `P - S < effective_right_pad <= P`. -/
theorem FOV_effective_right_pad (e : ConvEdge) (l : LocalEdge) (t : Int × Int × Int × Int)
    (hs : 1 ≤ e.stride) (hk : e.kernel_size ≤ e.image_size_x + 2 * e.padding)
    (hs' : 1 ≤ l.stride) (hk' : l.kernel_size ≤ l.image_size_x + 2 * l.padding) :
    (fovRightPad e.FOV e.stride t
        = e.padding - (e.image_size_x + 2 * e.padding - e.kernel_size) % e.stride ∧
      (fovRightPad e.FOV e.stride t = e.padding ↔
        e.stride ∣ e.image_size_x + 2 * e.padding - e.kernel_size) ∧
      e.padding - e.stride < fovRightPad e.FOV e.stride t ∧
      fovRightPad e.FOV e.stride t ≤ e.padding) ∧
    (fovRightPad l.FOV l.stride t
        = l.padding - (l.image_size_x + 2 * l.padding - l.kernel_size) % l.stride ∧
      (fovRightPad l.FOV l.stride t = l.padding ↔
        l.stride ∣ l.image_size_x + 2 * l.padding - l.kernel_size) ∧
      l.padding - l.stride < fovRightPad l.FOV l.stride t ∧
      fovRightPad l.FOV l.stride t ≤ l.padding) := by
  constructor
  · obtain ⟨h1, h2, h3, h4⟩ := rightPad_formula hs hk
    rw [fovRightPad_ConvEdge]
    exact ⟨h1, h2.trans Int.dvd_iff_emod_eq_zero.symm, h3, h4⟩
  · obtain ⟨h1, h2, h3, h4⟩ := rightPad_formula hs' hk'
    rw [fovRightPad_LocalEdge]
    exact ⟨h1, h2.trans Int.dvd_iff_emod_eq_zero.symm, h3, h4⟩

/-- C13 on an image of width 8 with kernel 3, stride 2 and no padding, where one
trailing pixel is discarded: the effective right padding is `0 - 5 mod 2 = -1`,
which is negative; with kernel 4 the stride tiles the image and it is 0. -/
theorem FOV_effective_right_pad_witness :
    fovRightPad (mkConv (mkBase 8 8 3 3 3 16 false) 3 2 0 0 false).FOV 2 (1, 1, 0, 0) = -1 ∧
    fovRightPad (mkLocal (mkBase 8 8 3 3 3 16 false) 4 2 0).FOV 2 (1, 1, 0, 0) = 0 :=
  have h := FOV_effective_right_pad (mkConv (mkBase 8 8 3 3 3 16 false) 3 2 0 0 false)
    (mkLocal (mkBase 8 8 3 3 3 16 false) 4 2 0) (1, 1, 0, 0)
    (by decide) (by decide) (by decide) (by decide)
  ⟨h.1.1.trans (by decide), h.2.1.trans (by decide)⟩

theorem DIVUP_eq_one {x y : Int} (hx : 1 ≤ x) (hxy : x ≤ y) : DIVUP x y = 1 := by
  obtain ⟨h0, h1, h2, h3⟩ := tdiv_bounds (show 0 ≤ x + y - 1 by omega) (show 1 ≤ y by omega)
  unfold DIVUP
  rcases lt_trichotomy (Int.tdiv (x + y - 1) y) 1 with h | h | h
  · have h4 : Int.tdiv (x + y - 1) y = 0 := by omega
    rw [h4] at h1
    omega
  · exact h
  · have h4 : 2 * y ≤ Int.tdiv (x + y - 1) y * y :=
      mul_le_mul_of_nonneg_right (show 2 ≤ Int.tdiv (x + y - 1) y by omega) (by omega)
    omega

theorem DIVUP_ge_two {x y : Int} (hy : 1 ≤ y) (hxy : y < x) : 2 ≤ DIVUP x y := by
  obtain ⟨h0, h1, h2, h3⟩ := tdiv_bounds (show 0 ≤ x + y - 1 by omega) hy
  unfold DIVUP
  by_contra hlt
  have h4 : Int.tdiv (x + y - 1) y * y ≤ 1 * y :=
    mul_le_mul_of_nonneg_right (show Int.tdiv (x + y - 1) y ≤ 1 by omega) (by omega)
  omega

/-- The direct path of `ConvEdge::ComputeOuter` is a single block exactly on the
grids with no more rows than columns: with the block size `num_modules_x` that
it hands to the backend, the number of blocks is 1 when
`1 <= num_modules_y <= num_modules_x` and at least 2 when
`num_modules_y > num_modules_x >= 1`. -/
theorem direct_path_blocks (e : ConvEdge) :
    (1 ≤ e.num_modules_y → e.num_modules_y ≤ e.num_modules_x →
      DIVUP e.num_modules_y e.num_modules_x * DIVUP e.num_modules_x e.num_modules_x = 1) ∧
    (1 ≤ e.num_modules_x → e.num_modules_x < e.num_modules_y →
      2 ≤ DIVUP e.num_modules_y e.num_modules_x * DIVUP e.num_modules_x e.num_modules_x) := by
  constructor
  · intro h1 h2
    rw [DIVUP_eq_one h1 h2, DIVUP_eq_one (show 1 ≤ e.num_modules_x by omega) le_rfl]
    rfl
  · intro h1 h2
    rw [DIVUP_eq_one h1 le_rfl, mul_one]
    exact DIVUP_ge_two h1 h2

/-- C12 fails on a grid with more rows than columns. On the 2 × 1 grid, with
`partial_sum = 0`, `ComputeOuter` writes into its gradient tensor of shape
`(1, 1)` the result of the backend primitive called with the block size
`num_modules_x = 1`, for which the grid is `DIVUP(2, 1) * DIVUP(1, 1) = 2`
blocks, not 1: the gradient tensor has room for one of the two block gradients,
and receives 1 where the gradient of the whole grid is 2. -/
theorem ComputeOuter_direct_blocks_rect :
    (rectEdge 0 0).partial_sum = 0 ∧
    (rectEdge 0 0).num_modules_y = 2 ∧ (rectEdge 0 0).num_modules_x = 1 ∧
    ((rectEdge 0 0).ComputeOuter unitPrimitives ⟨0, 0, fun _ => 0⟩ (rectEdge 0 0)
        onesInput onesInput).map (fun s => s.1.grad_weights)
      = some (Matrix.ConvOutp unitPrimitives onesInput onesInput (rectEdge 0 0).grad_weights
          (rectEdge 0 0).image_size_y (rectEdge 0 0).num_modules_y (rectEdge 0 0).num_modules_x
          (rectEdge 0 0).kernel_size (rectEdge 0 0).padding (rectEdge 0 0).stride
          (rectEdge 0 0).num_input_channels (rectEdge 0 0).num_modules_x 0
          ((rectEdge 0 0).scale_gradients / ((onesInput.rows : Int) : ℚ))) ∧
    DIVUP (rectEdge 0 0).num_modules_y (rectEdge 0 0).num_modules_x
      * DIVUP (rectEdge 0 0).num_modules_x (rectEdge 0 0).num_modules_x = 2 ∧
    (rectEdge 0 0).grad_weights.rows = 1 ∧ (rectEdge 0 0).grad_weights.cols = 1 ∧
    (Matrix.ConvOutp unitPrimitives onesInput onesInput (rectEdge 0 0).grad_weights
          (rectEdge 0 0).image_size_y (rectEdge 0 0).num_modules_y (rectEdge 0 0).num_modules_x
          (rectEdge 0 0).kernel_size (rectEdge 0 0).padding (rectEdge 0 0).stride
          (rectEdge 0 0).num_input_channels (rectEdge 0 0).num_modules_x 0
          ((rectEdge 0 0).scale_gradients / ((onesInput.rows : Int) : ℚ))).data 0 = 1 ∧
    gridGrad (unitPrimitives.convOutp onesInput onesInput (rectEdge 0 0).image_size_y
      (rectEdge 0 0).kernel_size (rectEdge 0 0).padding (rectEdge 0 0).stride
      (rectEdge 0 0).num_input_channels) 2 1 0 = 2 := by
  refine ⟨rfl, by decide, by decide, ?_, by decide, rfl, rfl, ?_, ?_⟩
  · rfl
  · norm_num [Matrix.ConvOutp, rectEdge, mkConv, mkBase, ConvEdge.SetImageSize,
      Edge.SetImageSize, blockGrad, unitPrimitives, onesInput, Finset.sum_range_succ]
    decide
  · norm_num [gridGrad, unitPrimitives, Finset.sum_range_succ]

end Convnet
